import Mathlib

/-!
# Verification of the `lr_printer` natural-number printers

Shallow embedding of the four printing strategies of the repository:

* `lr_printer` (`lr_printer.hpp`): most-significant-first, single digits,
  driven by an incremental power-of-base cache;
* `lr_printer_2_digits` (`lr_printer_2_digits.hpp`): most-significant-first,
  two digits per step via a digit-pair table;
* `modulo_printer` (`modulo_printer.hpp`): least-significant-first via `%`
  and `/`, writing into a scratch buffer from its tail;
* `modulo_printer_2_digits` (`modulo_printer_2_digits.hpp`): the paired
  variant of the modulo printer.

The C++ code is templated over a numeric type `NumberType`.  We model a
fixed-width unsigned numeric type of bit width `w`: values are `Nat` and
every multiplication is reduced `% 2 ^ w`, which is where the power cache's
overflow detection lives.  Division and remainder on non-negative machine
integers agree with `Nat` division and remainder.

Character data (`char` arrays `_alphabet`, `_alphabet_sqr`, `_buffer`) is
modelled by `List Char`; an out-of-range C array read is modelled by
`List.getD _ _ ' '` (all such reads are proved in range under the
invariants, so the default is never relevant to the theorems).
-/

/-! ## Alphabet configuration

`setup_default_alphabet` (identical loops in all four classes) fills
positions `0..base-1` with `'0'..'9'` and then `'a'..'z'`: the result is
the first `base` characters of the 36-character sequence below. -/

/-- The characters `'0'..'9'` followed by `'a'..'z'`, the pool from which
`setup_default_alphabet` draws. -/
def default_alphabet_chars : List Char :=
  (List.range 10).map (fun i => Char.ofNat (48 + i)) ++
    (List.range 26).map (fun i => Char.ofNat (97 + i))

/-- `setup_default_alphabet` of all four classes: the two fill loops write
`'0'..'9'` then `'a'..'z'` while `length < base`, i.e. the first `base`
characters of `default_alphabet_chars`. -/
def setup_default_alphabet (base : Nat) : List Char :=
  default_alphabet_chars.take base

/-- The `assert` guarding `lr_printer::setup_default_alphabet`:
`assert( _base <= 10 + 26 )`. -/
def lr_alphabet_assert (base : Nat) : Prop := base ≤ 10 + 26

/-- The `assert` guarding `lr_printer_2_digits::setup_default_alphabet`:
`assert( _base <= 10 + 6 )`. -/
def lr2_alphabet_assert (base : Nat) : Prop := base ≤ 10 + 6

/-- The `assert` guarding `modulo_printer::setup_default_alphabet`:
`assert( _base <= 10 + 26 )`. -/
def mp_alphabet_assert (base : Nat) : Prop := base ≤ 10 + 26

/-- The `assert` guarding `modulo_printer_2_digits::setup_default_alphabet`:
`assert( _base <= BASE_MAX )` with `BASE_MAX = 10 + 26`. -/
def mp2_alphabet_assert (base : Nat) : Prop := base ≤ 10 + 26

/-- `calculate_alphabet_sqr` of the two paired classes: for every `i`, `j`
below `base`, append `_alphabet[i]` then `_alphabet[j]`. -/
def calculate_alphabet_sqr (base : Nat) (alphabet : List Char) : List Char :=
  (List.range base).flatMap (fun i =>
    (List.range base).flatMap (fun j =>
      [alphabet.getD i ' ', alphabet.getD j ' ']))

/-! ## Buffer capacities (`C10`) -/

/-- `lr_printer::MAX_DIGITS` — size of `_powers` and `_buffer`. -/
def lr_MAX_DIGITS : Nat := 70

/-- `lr_printer_2_digits::DIGITS_MAX` — size of `_powers` and `_buffer`. -/
def lr2_DIGITS_MAX : Nat := 64 + 5

/-- `modulo_printer::DIGITS_MAX` — size of `_buffer`. -/
def mp_DIGITS_MAX : Nat := 64 + 7

/-- `modulo_printer_2_digits::DIGITS_MAX` — size of `_buffer`. -/
def mp2_DIGITS_MAX : Nat := 64 + 5

/-! ## The power cache

`append_helper_data` and `init_helper_data` are textually identical in
`lr_printer` and `lr_printer_2_digits`, so they are defined once.  The
power table `_powers[0.._powers_length-1]` is a `List Nat`. -/

/-- `append_helper_data` (both `lr` classes): multiply the last power by the
base (a machine multiplication, hence `% 2 ^ w`), detect overflow by
dividing back, and append on success. -/
def append_helper_data (b w : Nat) (ps : List Nat) : Option (List Nat) :=
  let prev := ps.getLastD 0
  let new_power := prev * b % 2 ^ w
  if new_power / b = prev then some (ps ++ [new_power]) else none

/-- `init_helper_data` (both `lr` classes): `_powers = [1]`, then
`DATA_INIT_LENGTH - 1 = 3` calls of `append_helper_data` whose results are
ignored (a failed append leaves the table unchanged;
`_reached_max_power` stays `false`). -/
def init_helper_data (b w : Nat) : List Nat :=
  let s1 := (append_helper_data b w [1]).getD [1]
  let s2 := (append_helper_data b w s1).getD s1
  (append_helper_data b w s2).getD s2

/-- The ascending scan at the end of `lr_printer::get_max_power_ptr`:
`power_ptr` walks up from `_powers` while `*power_ptr <= num`, then steps
one back; as an index this is (first index whose power exceeds `num`)
minus one.  The source relies on such an entry existing (it is proved to
under the invariant); `findIdx` returns the length when none does. -/
def find_power_idx (ps : List Nat) (num : Nat) : Int :=
  (ps.findIdx (fun p => decide (num < p)) : Int) - 1

/-- The growth loop of `lr_printer::get_max_power_ptr` (the
`_reached_max_power == false` branch): while the top power is `≤ num`,
append; on overflow set the flag and return the last index.  The loop is
written on explicit fuel; with the fuel `w + 1` supplied by
`get_max_power_ptr` the fuel never runs out (each successful append
multiplies the strictly positive top entry by `b ≥ 2`, and the loop only
continues while it is `≤ num < 2 ^ w`), and the fuel-exhausted branch
coincides with the normal exit.  Returns (index, `_reached_max_power`,
`_powers`). -/
def grow_powers (b w num : Nat) : Nat → List Nat → Int × Bool × List Nat
  | 0, ps => (find_power_idx ps num, false, ps)
  | fuel + 1, ps =>
    if ps.getLastD 0 ≤ num then
      match append_helper_data b w ps with
      | some ps2 => grow_powers b w num fuel ps2
      | none => ((ps.length : Int) - 1, true, ps)
    else
      (find_power_idx ps num, false, ps)

/-- `lr_printer::get_max_power_ptr`, acting on the mutable state
`(_reached_max_power, _powers)`; the returned `Int` is the offset of the
returned pointer from `_powers`. -/
def get_max_power_ptr (b w num : Nat) (reached : Bool) (ps : List Nat) :
    Int × Bool × List Nat :=
  if reached then
    if ps.getLastD 0 ≤ num then ((ps.length : Int) - 1, reached, ps)
    else (find_power_idx ps num, reached, ps)
  else
    grow_powers b w num (w + 1) ps

/-- The digit loop of `lr_printer::print_to_out_iter`, iterating over the
powers from `power_ptr` down to `_powers` (passed here as the descending
list of those powers): `digit = num / *power_ptr`, emit, subtract.
Returns the digit values and the final value of `num` (the subject of
`assert( num == 0 )`). -/
def lr_digits : List Nat → Nat → List Nat × Nat
  | [], num => ([], num)
  | p :: rest, num =>
    let digit := num / p
    let r := lr_digits rest (num - digit * p)
    (digit :: r.1, r.2)

/-- `lr_printer::print_to_out_iter`.  Returns the emitted characters, the
final value of `num` (`assert( num == 0 )`), and the updated mutable state
`(_reached_max_power, _powers)`. -/
def print_to_out_iter (b w : Nat) (alphabet : List Char) (reached : Bool)
    (ps : List Nat) (num : Nat) : List Char × Nat × Bool × List Nat :=
  if num = 0 then ([alphabet.getD 0 ' '], 0, reached, ps)
  else
    let r := get_max_power_ptr b w num reached ps
    let d := lr_digits ((r.2.2.take (r.1.toNat + 1)).reverse) num
    (d.1.map (fun dg => alphabet.getD dg ' '), d.2, r.2.1, r.2.2)

/-! ## `lr_printer_2_digits` -/

/-- The double-stepping scan of `lr_printer_2_digits::get_max_power_ptr`:
`while (*power_ptr <= num) power_ptr += 2` from `_powers`, on fuel (the
source again relies on a stopping entry existing at an even offset, which
holds under the invariant; `ps.length + 2` fuel is always enough then). -/
def scan2_step (ps : List Nat) (num : Nat) : Nat → Nat → Nat
  | 0, ptr => ptr
  | fuel + 1, ptr =>
    if ps.getD ptr 0 ≤ num then scan2_step ps num fuel (ptr + 2) else ptr

/-- The full final scan of `lr_printer_2_digits::get_max_power_ptr`:
double-step up, one step back, possibly one step forward, then two less. -/
def scan_power_idx_2 (ps : List Nat) (num : Nat) : Int :=
  let e := scan2_step ps num (ps.length + 2) 0
  let e2 := if ps.getD (e - 1) 0 ≤ num then e else e - 1
  (e2 : Int) - 2

/-- The growth loop of `lr_printer_2_digits::get_max_power_ptr` (the
`_reached_max_power == false` branch), on fuel exactly as `grow_powers`:
the loop condition reads `_powers[_powers_length - 2]`, and on overflow the
returned index distinguishes a max-digit value from a one-digit-less
value. -/
def grow_powers_2 (b w num : Nat) : Nat → List Nat → Int × Bool × List Nat
  | 0, ps => (scan_power_idx_2 ps num, false, ps)
  | fuel + 1, ps =>
    if ps.getD (ps.length - 2) 0 ≤ num then
      match append_helper_data b w ps with
      | some ps2 => grow_powers_2 b w num fuel ps2
      | none =>
        if ps.getLastD 0 ≤ num then ((ps.length : Int) - 2, true, ps)
        else ((ps.length : Int) - 3, true, ps)
    else
      (scan_power_idx_2 ps num, false, ps)

/-- `lr_printer_2_digits::get_max_power_ptr`. -/
def get_max_power_ptr_2 (b w num : Nat) (reached : Bool) (ps : List Nat) :
    Int × Bool × List Nat :=
  if reached then
    if ps.getD (ps.length - 2) 0 ≤ num then
      if ps.getLastD 0 ≤ num then ((ps.length : Int) - 2, reached, ps)
      else ((ps.length : Int) - 3, reached, ps)
    else (scan_power_idx_2 ps num, reached, ps)
  else grow_powers_2 b w num (w + 1) ps

/-- The pair loop of `lr_printer_2_digits::print_to_out_iter`:
`for ( ; power_ptr >= _powers + 1; power_ptr -= 2 )`, emitting the two
characters of the digit-pair table entry `digits_2 = num / *power_ptr`.
`k` is the pointer offset from `_powers` (it ends at `0` or `-1`); written
on fuel (`ps.length + 2` is always enough, as `k < ps.length` and `k`
drops by 2 each round).  Returns emitted characters, the final offset and
the final value of `num`. -/
def lr2_loop (sqr : List Char) (ps : List Nat) :
    Nat → Int → Nat → List Char × Int × Nat
  | 0, k, num => ([], k, num)
  | fuel + 1, k, num =>
    if 1 ≤ k then
      let p := ps.getD k.toNat 0
      let digits_2 := num / p
      let r := lr2_loop sqr ps fuel (k - 2) (num - digits_2 * p)
      (sqr.getD (digits_2 * 2) ' ' :: sqr.getD (digits_2 * 2 + 1) ' ' :: r.1,
        r.2.1, r.2.2)
    else ([], k, num)

/-- `lr_printer_2_digits::print_to_out_iter`.  Returns the emitted
characters, the final pointer offset (the subject of
`assert( power_ptr == _powers || power_ptr == _powers - 1 )`), the final
value of `num` (the subject of `assert( num < _base_sqr )`, resp.
`assert( num < _base )`), and the updated state.  `_base_sqr` is always
`_base * _base` (established by `set_base` and the constructors), written
`b * b` here. -/
def print_to_out_iter_2 (b w : Nat) (alphabet sqr : List Char)
    (reached : Bool) (ps : List Nat) (num : Nat) :
    List Char × Int × Nat × Bool × List Nat :=
  if num = 0 then ([alphabet.getD 0 ' '], 0, 0, reached, ps)
  else
    let r := get_max_power_ptr_2 b w num reached ps
    let l := lr2_loop sqr r.2.2 (r.2.2.length + 2) r.1 num
    let tl :=
      if l.2.1 = 0 then
        [sqr.getD (l.2.2 * 2) ' ', sqr.getD (l.2.2 * 2 + 1) ' ']
      else if l.2.1 = -1 then [alphabet.getD l.2.2 ' ']
      else []
    (l.1 ++ tl, l.2.1, l.2.2, r.2.1, r.2.2)

/-! ## `modulo_printer` -/

/-- The digit values produced by the `do { ... } while ( x != 0 )` loop of
`modulo_printer::print_to_buffer`, least significant first (the loop
writes them into the buffer from its tail, so the finished text is this
list reversed).  The guard `2 ≤ b` only serves termination of the Lean
recursion; the printers are always configured with `base ≥ 2`. -/
def modulo_digits (b : Nat) (x : Nat) : List Nat :=
  if h : 2 ≤ b ∧ 0 < x then
    x % b :: modulo_digits b (x / b)
  else []
termination_by x
decreasing_by exact Nat.div_lt_self h.2 h.1

/-- `modulo_printer::print_to_buffer`: the constructed string, read left to
right. -/
def print_to_buffer (b : Nat) (alphabet : List Char) (x : Nat) : List Char :=
  if x = 0 then [alphabet.getD 0 ' ']
  else (modulo_digits b x).reverse.map (fun d => alphabet.getD d ' ')

/-! ## `modulo_printer_2_digits` -/

/-- The pair values produced by the `while ( x >= _base )` loop of
`modulo_printer_2_digits::print_to_buffer`, least significant pair first,
together with the value of `x` left for the trailing
`if ( x > 0 )` single digit.  `_base_sqr` is always `_base * _base`,
written `b * b`; the guard `2 ≤ b` only serves termination. -/
def modulo_chunks_2 (b : Nat) (x : Nat) : List Nat × Nat :=
  if h : 2 ≤ b ∧ b ≤ x then
    let r := modulo_chunks_2 b (x / (b * b))
    (x % (b * b) :: r.1, r.2)
  else ([], x)
termination_by x
decreasing_by
  exact Nat.div_lt_self (Nat.lt_of_lt_of_le (by omega) h.2)
    (Nat.lt_of_lt_of_le (by norm_num) (Nat.mul_le_mul h.1 h.1))

/-- `modulo_printer_2_digits::print_to_buffer`: the constructed string read
left to right — the optional leading single digit, then the pairs from
most significant to least significant, each pair read from the digit-pair
table (high character first, as it sits at the lower buffer address). -/
def print_to_buffer_2 (b : Nat) (alphabet sqr : List Char) (x : Nat) :
    List Char :=
  if x = 0 then [alphabet.getD 0 ' ']
  else
    let c := modulo_chunks_2 b x
    (if 0 < c.2 then [alphabet.getD c.2 ' '] else []) ++
      c.1.reverse.flatMap (fun pi =>
        [sqr.getD (2 * pi) ' ', sqr.getD (2 * pi + 1) ' '])

/-! ## Printer instances (public surface used by `main.cpp`)

Each structure holds the object state; `print` returns the text, the digit
count (`print(x, buf)` returns the number of characters written) and the
updated object. -/

/-- `ml::printers::lr_printer<NumberType>` state (width `w` is carried by
the operations). -/
structure lr_printer where
  base : Nat
  alphabet : List Char
  reached_max_power : Bool
  powers : List Nat

/-- `lr_printer::set_base`: store the base and `init_helper_data()`. -/
def lr_printer.set_base (w : Nat) (p : lr_printer) (b : Nat) : lr_printer :=
  { p with base := b, reached_max_power := false,
           powers := init_helper_data b w }

/-- `lr_printer::setup_default_alphabet`. -/
def lr_printer.setup_default (p : lr_printer) : lr_printer :=
  { p with alphabet := setup_default_alphabet p.base }

/-- `lr_printer::lr_printer(base_)`: `set_base` then
`setup_default_alphabet`. -/
def lr_printer.construct (w b : Nat) : lr_printer :=
  (lr_printer.set_base w ⟨0, [], false, []⟩ b).setup_default

/-- `lr_printer::print(x, buf)`: text, digit count, updated object. -/
def lr_printer.print (w : Nat) (p : lr_printer) (x : Nat) :
    List Char × Nat × lr_printer :=
  let r := print_to_out_iter p.base w p.alphabet p.reached_max_power p.powers x
  (r.1, r.1.length,
    { p with reached_max_power := r.2.2.1, powers := r.2.2.2 })

/-- `ml::printers::lr_printer_2_digits<NumberType>` state. -/
structure lr_printer_2_digits where
  base : Nat
  alphabet : List Char
  alphabet_sqr : List Char
  reached_max_power : Bool
  powers : List Nat

/-- `lr_printer_2_digits::set_base`: store the base (and its square),
recompute the pair table from the current alphabet, `init_helper_data()`. -/
def lr_printer_2_digits.set_base (w : Nat) (p : lr_printer_2_digits)
    (b : Nat) : lr_printer_2_digits :=
  { p with base := b, alphabet_sqr := calculate_alphabet_sqr b p.alphabet,
           reached_max_power := false, powers := init_helper_data b w }

/-- `lr_printer_2_digits::setup_default_alphabet` (fills the alphabet, then
`calculate_alphabet_sqr`). -/
def lr_printer_2_digits.setup_default (p : lr_printer_2_digits) :
    lr_printer_2_digits :=
  { p with alphabet := setup_default_alphabet p.base,
           alphabet_sqr :=
             calculate_alphabet_sqr p.base (setup_default_alphabet p.base) }

/-- `lr_printer_2_digits::lr_printer_2_digits(base_)`. -/
def lr_printer_2_digits.construct (w b : Nat) : lr_printer_2_digits :=
  (lr_printer_2_digits.set_base w ⟨0, [], [], false, []⟩ b).setup_default

/-- `lr_printer_2_digits::print(x, buf)`. -/
def lr_printer_2_digits.print (w : Nat) (p : lr_printer_2_digits) (x : Nat) :
    List Char × Nat × lr_printer_2_digits :=
  let r := print_to_out_iter_2 p.base w p.alphabet p.alphabet_sqr
    p.reached_max_power p.powers x
  (r.1, r.1.length,
    { p with reached_max_power := r.2.2.2.1, powers := r.2.2.2.2 })

/-- `ml::printers::modulo_printer<NumberType>` state. -/
structure modulo_printer where
  base : Nat
  alphabet : List Char

/-- `modulo_printer::set_base` (only stores the base; `prepare_buffer`
just re-writes the terminator slot). -/
def modulo_printer.set_base (p : modulo_printer) (b : Nat) : modulo_printer :=
  { p with base := b }

/-- `modulo_printer::setup_default_alphabet`. -/
def modulo_printer.setup_default (p : modulo_printer) : modulo_printer :=
  { p with alphabet := setup_default_alphabet p.base }

/-- `modulo_printer::modulo_printer(base_)`. -/
def modulo_printer.construct (b : Nat) : modulo_printer :=
  (modulo_printer.mk b []).setup_default

/-- `modulo_printer::print(x, buf)`. -/
def modulo_printer.print (p : modulo_printer) (x : Nat) :
    List Char × Nat × modulo_printer :=
  let s := print_to_buffer p.base p.alphabet x
  (s, s.length, p)

/-- `ml::printers::modulo_printer_2_digits<NumberType>` state. -/
structure modulo_printer_2_digits where
  base : Nat
  alphabet : List Char
  alphabet_sqr : List Char

/-- `modulo_printer_2_digits::set_base`: store the base (and its square)
and recompute the pair table from the current alphabet. -/
def modulo_printer_2_digits.set_base (p : modulo_printer_2_digits)
    (b : Nat) : modulo_printer_2_digits :=
  { p with base := b, alphabet_sqr := calculate_alphabet_sqr b p.alphabet }

/-- `modulo_printer_2_digits::setup_default_alphabet`. -/
def modulo_printer_2_digits.setup_default (p : modulo_printer_2_digits) :
    modulo_printer_2_digits :=
  { p with alphabet := setup_default_alphabet p.base,
           alphabet_sqr :=
             calculate_alphabet_sqr p.base (setup_default_alphabet p.base) }

/-- `modulo_printer_2_digits::modulo_printer_2_digits(base_)`. -/
def modulo_printer_2_digits.construct (b : Nat) : modulo_printer_2_digits :=
  ((modulo_printer_2_digits.mk 0 [] []).set_base b).setup_default

/-- `modulo_printer_2_digits::print(x, buf)`. -/
def modulo_printer_2_digits.print (p : modulo_printer_2_digits) (x : Nat) :
    List Char × Nat × modulo_printer_2_digits :=
  let s := print_to_buffer_2 p.base p.alphabet p.alphabet_sqr x
  (s, s.length, p)

/-! ## State evolution across prints (for the invariant claims) -/

/-- The `( _reached_max_power, _powers )` state of an `lr_printer` after
construction (`set_base`) followed by printing each number of `nums`. -/
def lr_run (b w : Nat) (nums : List Nat) : Bool × List Nat :=
  nums.foldl (fun st n =>
    let r := print_to_out_iter b w (setup_default_alphabet b) st.1 st.2 n
    (r.2.2.1, r.2.2.2)) (false, init_helper_data b w)

/-- The state of an `lr_printer_2_digits` after construction followed by
printing each number of `nums`. -/
def lr2_run (b w : Nat) (nums : List Nat) : Bool × List Nat :=
  nums.foldl (fun st n =>
    let r := print_to_out_iter_2 b w (setup_default_alphabet b)
      (calculate_alphabet_sqr b (setup_default_alphabet b)) st.1 st.2 n
    (r.2.2.2.1, r.2.2.2.2)) (false, init_helper_data b w)

/-! ## Spec-side helpers (the claims' vocabulary, not source code) -/

/-- Spec-side: read a produced character string back into an integer via
the alphabet's digit-to-character mapping (claim `C1`'s round trip). -/
def decode (b : Nat) (alphabet : List Char) (cs : List Char) : Nat :=
  cs.foldl (fun acc c => acc * b + alphabet.indexOf c) 0

/-- Spec-side: the big-endian digits of `num` at positions
`j-1, j-2, …, 0` (the canonical `j`-digit base-`b` rendering of
`num < b ^ j`). -/
def bePad (b j num : Nat) : List Nat :=
  (List.range j).reverse.map (fun i => num / b ^ i % b)

/-- The shape invariant of the power table: entry `k` is `b ^ k`. -/
def powsOf (b : Nat) (ps : List Nat) : Prop :=
  ps = (List.range ps.length).map (b ^ ·)

/-! ## Generic list helpers -/

theorem getD_range_map (f : Nat → Nat) {L i : Nat} (d : Nat) (h : i < L) :
    ((List.range L).map f).getD i d = f i := by
  simp [List.getD_eq_getElem?_getD, List.getElem?_map, List.getElem?_range h]

theorem getLastD_eq_getD {α : Type} (l : List α) (d : α) :
    l.getLastD d = l.getD (l.length - 1) d := by
  rw [List.getLastD_eq_getLast?, List.getLast?_eq_getElem?,
    List.getD_eq_getElem?_getD]

theorem findIdx_spec {α : Type} (p : α → Bool) (d : α) :
    ∀ (l : List α) (k : Nat), k < l.length → p (l.getD k d) = true →
      (∀ j, j < k → p (l.getD j d) = false) → l.findIdx p = k := by
  intro l
  induction l with
  | nil => intro k hk; exact absurd hk (by simp)
  | cons a t ih =>
    intro k hk hpk hlt
    cases k with
    | zero =>
      simp only [List.getD_eq_getElem?_getD] at hpk
      simp only [List.getElem?_cons_zero, Option.getD_some] at hpk
      simp [List.findIdx_cons, hpk]
    | succ k =>
      have ha : p a = false := by
        have := hlt 0 (Nat.succ_pos k)
        simpa [List.getD_eq_getElem?_getD] using this
      have ht : t.findIdx p = k := by
        refine ih k (by simpa using hk) ?_ ?_
        · simpa [List.getD_eq_getElem?_getD] using hpk
        · intro j hj
          have := hlt (j + 1) (by omega)
          simpa [List.getD_eq_getElem?_getD] using this
      simp [List.findIdx_cons, ha, ht]

/-! ## Power-table invariant lemmas -/

theorem powsOf_getD {b : Nat} {ps : List Nat} (h : powsOf b ps) {i : Nat}
    (hi : i < ps.length) (d : Nat) : ps.getD i d = b ^ i := by
  conv_lhs => rw [h]
  exact getD_range_map _ d hi

theorem powsOf_getLastD {b : Nat} {ps : List Nat} (h : powsOf b ps)
    (hlen : 1 ≤ ps.length) (d : Nat) : ps.getLastD d = b ^ (ps.length - 1) := by
  rw [getLastD_eq_getD]
  exact powsOf_getD h (by omega) d

theorem powsOf_append {b : Nat} {ps : List Nat} (h : powsOf b ps) :
    powsOf b (ps ++ [b ^ ps.length]) := by
  unfold powsOf
  have h1 : (ps ++ [b ^ ps.length]).length = ps.length + 1 := by simp
  rw [h1, List.range_succ, List.map_append]
  exact congrArg (· ++ [b ^ ps.length]) h

/-- The length bound behind `C10`: every cached power fits in the type, so
the table has at most `w` entries. -/
theorem powsOf_length_le {b w : Nat} {ps : List Nat} (hb : 2 ≤ b)
    (hlen : 1 ≤ ps.length) (htop : b ^ (ps.length - 1) < 2 ^ w) :
    ps.length ≤ w := by
  have h2 : 2 ^ (ps.length - 1) < 2 ^ w :=
    Nat.lt_of_le_of_lt (Nat.pow_le_pow_left hb _) htop
  have := (Nat.pow_lt_pow_iff_right (by norm_num : 1 < 2)).mp h2
  omega

/-- The divide-back overflow check succeeds exactly when the next power
still fits: success case. -/
theorem append_helper_some {b w : Nat} {ps : List Nat} (hps : powsOf b ps)
    (hlen : 1 ≤ ps.length) (hb : 1 ≤ b) (hfit : b ^ ps.length < 2 ^ w) :
    append_helper_data b w ps = some (ps ++ [b ^ ps.length]) := by
  have hlast := powsOf_getLastD hps hlen 0
  have hm : b ^ (ps.length - 1) * b = b ^ ps.length := by
    rw [← pow_succ]; congr 1; omega
  have hdiv : b ^ ps.length / b = b ^ (ps.length - 1) := by
    rw [← hm]; exact Nat.mul_div_cancel _ (by omega)
  simp only [append_helper_data, hlast, hm, Nat.mod_eq_of_lt hfit, hdiv,
    if_true]

/-- The divide-back overflow check succeeds exactly when the next power
still fits: overflow case. -/
theorem append_helper_none {b w : Nat} {ps : List Nat} (hps : powsOf b ps)
    (hlen : 1 ≤ ps.length) (hb : 1 ≤ b) (hov : 2 ^ w ≤ b ^ ps.length) :
    append_helper_data b w ps = none := by
  have hlast := powsOf_getLastD hps hlen 0
  have hm : b ^ (ps.length - 1) * b = b ^ ps.length := by
    rw [← pow_succ]; congr 1; omega
  have hmod : b ^ ps.length % 2 ^ w < b ^ (ps.length - 1) * b := by
    calc b ^ ps.length % 2 ^ w < 2 ^ w :=
          Nat.mod_lt _ (Nat.pos_pow_of_pos w (by norm_num))
    _ ≤ b ^ ps.length := hov
    _ = b ^ (ps.length - 1) * b := hm.symm
  have hne : b ^ ps.length % 2 ^ w / b ≠ b ^ (ps.length - 1) := by
    have := (Nat.div_lt_iff_lt_mul (show 0 < b by omega)).mpr hmod
    omega
  simp only [append_helper_data, hlast, hm, if_neg hne]

/-! ## `lr_printer::get_max_power_ptr` specification -/

theorem find_power_idx_spec {b num : Nat} {ps : List Nat} (hps : powsOf b ps)
    (hb : 2 ≤ b) (hnum : 1 ≤ num) (htop : num < b ^ (ps.length - 1)) :
    find_power_idx ps num = (Nat.log b num : Int) := by
  have hb1 : 1 < b := by omega
  have hlog : Nat.log b num < ps.length - 1 :=
    Nat.log_lt_of_lt_pow (by omega) htop
  have hfind : ps.findIdx (fun p => decide (num < p)) = Nat.log b num + 1 := by
    refine findIdx_spec _ 0 ps (Nat.log b num + 1) (by omega) ?_ ?_
    · rw [powsOf_getD hps (by omega)]
      simpa using Nat.lt_pow_succ_log_self hb1 num
    · intro j hj
      rw [powsOf_getD hps (by omega)]
      have : b ^ j ≤ num := by
        calc b ^ j ≤ b ^ Nat.log b num := Nat.pow_le_pow_right (by omega) (by omega)
        _ ≤ num := Nat.pow_log_le_self b (by omega)
      simpa using this
  unfold find_power_idx
  rw [hfind]
  push_cast
  ring

theorem grow_powers_spec {b w num : Nat} (hb : 2 ≤ b) (hnum : 1 ≤ num)
    (hw : num < 2 ^ w) :
    ∀ (fuel : Nat) (ps : List Nat), powsOf b ps → 1 ≤ ps.length →
      b ^ (ps.length - 1) < 2 ^ w → w + 2 ≤ fuel + ps.length →
      ∀ {i : Int} {r : Bool} {qs : List Nat},
        grow_powers b w num fuel ps = (i, r, qs) →
        i = (Nat.log b num : Int) ∧ powsOf b qs ∧ ps.length ≤ qs.length ∧
        b ^ (qs.length - 1) < 2 ^ w ∧
        (r = true → 2 ^ w ≤ b ^ qs.length ∧ Nat.log b num + 1 = qs.length) ∧
        (r = false → num < b ^ (qs.length - 1)) := by
  intro fuel
  induction fuel with
  | zero =>
    intro ps hps hlen htop hfuel
    have := powsOf_length_le hb hlen htop
    omega
  | succ fuel ih =>
    intro ps hps hlen htop hfuel i r qs hgrow
    rw [grow_powers, powsOf_getLastD hps hlen] at hgrow
    by_cases hle : b ^ (ps.length - 1) ≤ num
    · rw [if_pos hle] at hgrow
      by_cases hfit : b ^ ps.length < 2 ^ w
      · rw [append_helper_some hps hlen (by omega) hfit] at hgrow
        have h2 := ih (ps ++ [b ^ ps.length]) (powsOf_append hps)
          (by simp only [List.length_append, List.length_singleton]; omega)
          (by simpa using hfit)
          (by simp only [List.length_append, List.length_singleton]; omega) hgrow
        refine ⟨h2.1, h2.2.1, ?_, h2.2.2.2⟩
        have := h2.2.2.1
        simp only [List.length_append, List.length_singleton] at this
        omega
      · rw [append_helper_none hps hlen (by omega) (by omega)] at hgrow
        simp only [Prod.mk.injEq] at hgrow
        obtain ⟨hi, hr, hqs⟩ := hgrow
        have hlog : Nat.log b num = ps.length - 1 := by
          refine Nat.log_eq_of_pow_le_of_lt_pow hle ?_
          have : ps.length - 1 + 1 = ps.length := by omega
          rw [this]; omega
        subst hqs
        refine ⟨?_, hps, le_refl _, htop, fun _ => ⟨by omega, by omega⟩,
          fun hrf => absurd (hr.trans hrf) (by simp)⟩
        rw [← hi, hlog]
        omega
    · rw [if_neg hle] at hgrow
      simp only [Prod.mk.injEq] at hgrow
      obtain ⟨hi, hr, hqs⟩ := hgrow
      subst hqs
      refine ⟨?_, hps, le_refl _, htop,
        fun hrt => absurd (hr.trans hrt) (by simp), fun _ => by omega⟩
      rw [← hi, find_power_idx_spec hps hb hnum (by omega)]

theorem get_max_power_ptr_spec {b w num : Nat} {reached : Bool} {ps : List Nat}
    (hb : 2 ≤ b) (hnum : 1 ≤ num) (hw : num < 2 ^ w) (hps : powsOf b ps)
    (hlen : 1 ≤ ps.length) (htop : b ^ (ps.length - 1) < 2 ^ w)
    (hreach : reached = true → 2 ^ w ≤ b ^ ps.length) :
    ∀ {i : Int} {r : Bool} {qs : List Nat},
      get_max_power_ptr b w num reached ps = (i, r, qs) →
      i = (Nat.log b num : Int) ∧ powsOf b qs ∧ ps.length ≤ qs.length ∧
      b ^ (qs.length - 1) < 2 ^ w ∧
      (r = true → 2 ^ w ≤ b ^ qs.length) ∧
      Nat.log b num + 1 ≤ qs.length ∧
      (Nat.log b num + 1 = qs.length → r = true) := by
  intro i r qs hrun
  unfold get_max_power_ptr at hrun
  cases reached with
  | true =>
    rw [if_pos rfl, powsOf_getLastD hps hlen] at hrun
    have hsat := hreach rfl
    by_cases hle : b ^ (ps.length - 1) ≤ num
    · rw [if_pos hle] at hrun
      simp only [Prod.mk.injEq] at hrun
      obtain ⟨hi, hr, hqs⟩ := hrun
      subst hqs
      have hlog : Nat.log b num = ps.length - 1 := by
        refine Nat.log_eq_of_pow_le_of_lt_pow hle ?_
        have : ps.length - 1 + 1 = ps.length := by omega
        rw [this]; omega
      exact ⟨by rw [← hi, hlog]; omega, hps, le_refl _, htop,
        fun _ => hsat, by omega, fun _ => hr.symm⟩
    · rw [if_neg hle] at hrun
      simp only [Prod.mk.injEq] at hrun
      obtain ⟨hi, hr, hqs⟩ := hrun
      subst hqs
      have hlog : Nat.log b num < ps.length - 1 :=
        Nat.log_lt_of_lt_pow (by omega) (by omega)
      exact ⟨by rw [← hi, find_power_idx_spec hps hb hnum (by omega)], hps,
        le_refl _, htop, fun _ => hsat, by omega, by omega⟩
  | false =>
    rw [if_neg (by simp)] at hrun
    have h := grow_powers_spec hb hnum hw (w + 1) ps hps hlen htop (by omega) hrun
    refine ⟨h.1, h.2.1, h.2.2.1, h.2.2.2.1, fun hrt => (h.2.2.2.2.1 hrt).1, ?_, ?_⟩
    · cases r with
      | true => have := (h.2.2.2.2.1 rfl).2; omega
      | false =>
        have := h.2.2.2.2.2 rfl
        have : Nat.log b num < qs.length - 1 := Nat.log_lt_of_lt_pow (by omega) this
        omega
    · cases r with
      | true => intro _; rfl
      | false =>
        have := h.2.2.2.2.2 rfl
        have : Nat.log b num < qs.length - 1 := Nat.log_lt_of_lt_pow (by omega) this
        omega

/-! ## Big-endian digit lemmas -/

theorem bePad_succ (b j num : Nat) :
    bePad b (j + 1) num = (num / b ^ j % b) :: bePad b j num := by
  unfold bePad
  rw [List.range_succ, List.reverse_append]
  rfl

theorem bePad_mod {b : Nat} (j num : Nat) :
    bePad b j (num % b ^ j) = bePad b j num := by
  unfold bePad
  apply List.map_congr_left
  intro i hi
  have hij : i < j := by
    have := List.mem_reverse.mp hi
    exact List.mem_range.mp this
  have hsplit : b ^ j = b ^ i * b ^ (j - i) := by
    rw [← pow_add]; congr 1; omega
  rw [hsplit, Nat.mod_mul_right_div_self]
  exact Nat.mod_mod_of_dvd _ (dvd_pow_self b (by omega))

theorem bePad_div (b L x : Nat) :
    bePad b (L + 1) x = bePad b L (x / b) ++ [x % b] := by
  unfold bePad
  rw [List.range_succ_eq_map, List.reverse_cons, List.map_append,
    List.map_reverse, List.map_map]
  rw [← List.map_reverse]
  congr 1
  · apply List.map_congr_left
    intro i _
    simp only [Function.comp_apply]
    rw [pow_succ', ← Nat.div_div_eq_div_mul]
  · simp

/-! ## `lr_printer::print_to_out_iter` specification -/

theorem lr_digits_spec {b : Nat} (hb : 2 ≤ b) :
    ∀ (j num : Nat), num < b ^ j →
      lr_digits ((List.range j).reverse.map (b ^ ·)) num = (bePad b j num, 0) := by
  intro j
  induction j with
  | zero =>
    intro num h
    have : num = 0 := by simpa using h
    subst this
    rfl
  | succ j ih =>
    intro num h
    have hlist : (List.range (j + 1)).reverse.map (b ^ ·) =
        b ^ j :: (List.range j).reverse.map (b ^ ·) := by
      rw [List.range_succ, List.reverse_append]
      rfl
    have hpow : 0 < b ^ j := Nat.pos_pow_of_pos j (by omega)
    have hsub : num - num / b ^ j * b ^ j = num % b ^ j :=
      Nat.sub_eq_of_eq_add (Nat.mod_add_div' num (b ^ j)).symm
    have hdlt : num / b ^ j < b := by
      rw [Nat.div_lt_iff_lt_mul hpow, ← pow_succ']
      exact h
    rw [hlist]
    simp only [lr_digits]
    rw [hsub, ih _ (Nat.mod_lt _ hpow)]
    rw [bePad_succ, bePad_mod, Nat.mod_eq_of_lt hdlt]

theorem print_to_out_iter_spec {b w num : Nat} {alphabet : List Char}
    {reached : Bool} {ps : List Nat}
    (hb : 2 ≤ b) (hnum : 1 ≤ num) (hw : num < 2 ^ w) (hps : powsOf b ps)
    (hlen : 1 ≤ ps.length) (htop : b ^ (ps.length - 1) < 2 ^ w)
    (hreach : reached = true → 2 ^ w ≤ b ^ ps.length) :
    ∀ {out : List Char} {fin : Nat} {r : Bool} {qs : List Nat},
      print_to_out_iter b w alphabet reached ps num = (out, fin, r, qs) →
      out = (bePad b (Nat.log b num + 1) num).map
        (fun d => alphabet.getD d ' ') ∧
      fin = 0 ∧ powsOf b qs ∧ ps.length ≤ qs.length ∧
      b ^ (qs.length - 1) < 2 ^ w ∧ (r = true → 2 ^ w ≤ b ^ qs.length) ∧
      Nat.log b num + 1 ≤ qs.length := by
  intro out fin r qs hp
  rcases hE : get_max_power_ptr b w num reached ps with ⟨i, rr, qs2⟩
  obtain ⟨hi, hqs, hle, htop2, hsat, hlog1, _⟩ :=
    get_max_power_ptr_spec hb hnum hw hps hlen htop hreach hE
  rw [print_to_out_iter, if_neg (by omega), hE] at hp
  simp only at hp
  subst hi
  have hq2 : qs2 = (List.range qs2.length).map (b ^ ·) := hqs
  have htake : qs2.take ((Nat.log b num : Int).toNat + 1) =
      (List.range (Nat.log b num + 1)).map (b ^ ·) := by
    rw [Int.toNat_natCast]
    conv_lhs => rw [hq2]
    rw [← List.map_take, List.take_range]
    congr 2
    omega
  rw [htake, ← List.map_reverse,
    lr_digits_spec hb _ num (Nat.lt_pow_succ_log_self (by omega) num)] at hp
  simp only [Prod.mk.injEq] at hp
  obtain ⟨ho, hf, hr, hq⟩ := hp
  subst hq
  refine ⟨ho.symm, hf.symm, hqs, hle, htop2, ?_, hlog1⟩
  intro hrt
  apply hsat
  rw [hr]
  exact hrt

/-! ## `modulo_printer` specification -/

theorem modulo_digits_eq {b : Nat} (hb : 2 ≤ b) (x : Nat) :
    1 ≤ x → modulo_digits b x = (bePad b (Nat.log b x + 1) x).reverse := by
  induction x using Nat.strong_induction_on with
  | _ x ih =>
    intro hx
    rw [modulo_digits, dif_pos ⟨hb, by omega⟩]
    by_cases hxb : x < b
    · have hx0 : x / b = 0 := Nat.div_eq_of_lt hxb
      rw [hx0, modulo_digits, dif_neg (by omega)]
      have hlog : Nat.log b x = 0 := by
        rw [Nat.log_eq_zero_iff]
        exact Or.inl hxb
      rw [hlog]
      simp [bePad, List.range_succ]
    · have hxb' : b ≤ x := by omega
      have hdiv1 : 1 ≤ x / b := (Nat.one_le_div_iff (by omega)).mpr hxb'
      have ihx := ih (x / b) (Nat.div_lt_self (by omega) (by omega)) hdiv1
      rw [ihx]
      have hlogpos : 0 < Nat.log b x := Nat.log_pos (by omega) hxb'
      have hlog : Nat.log b x + 1 = (Nat.log b (x / b) + 1) + 1 := by
        rw [Nat.log_div_base]
        omega
      rw [hlog]
      conv_rhs => rw [bePad_div, List.reverse_append]
      rfl

theorem print_to_buffer_spec {b x : Nat} {a : List Char} (hb : 2 ≤ b)
    (hx : 1 ≤ x) :
    print_to_buffer b a x =
      (bePad b (Nat.log b x + 1) x).map (fun d => a.getD d ' ') := by
  rw [print_to_buffer, if_neg (by omega), modulo_digits_eq hb x hx,
    List.reverse_reverse]

/-! ## Decoding (the `C1` round trip) -/

theorem decode_foldl {b : Nat} {a : List Char} (hb : 2 ≤ b)
    (hidx : ∀ d, d < b → a.indexOf (a.getD d ' ') = d) :
    ∀ (j acc num : Nat), num < b ^ j →
      List.foldl (fun acc c => acc * b + a.indexOf c) acc
        ((bePad b j num).map (fun d => a.getD d ' ')) = acc * b ^ j + num := by
  intro j
  induction j with
  | zero =>
    intro acc num h
    have : num = 0 := by simpa using h
    subst this
    simp [bePad]
  | succ j ih =>
    intro acc num h
    have hpow : 0 < b ^ j := Nat.pos_pow_of_pos j (by omega)
    rw [bePad_succ, ← bePad_mod]
    simp only [List.map_cons, List.foldl_cons]
    have hd : num / b ^ j % b < b := Nat.mod_lt _ (by omega)
    rw [hidx _ hd, ih _ (num % b ^ j) (Nat.mod_lt _ hpow)]
    have h1 : num / b ^ j < b := by
      rw [Nat.div_lt_iff_lt_mul hpow, ← pow_succ']
      exact h
    rw [Nat.mod_eq_of_lt h1, pow_succ]
    have h3 := Nat.mod_add_div' num (b ^ j)
    calc (acc * b + num / b ^ j) * b ^ j + num % b ^ j
        = acc * (b ^ j * b) + (num / b ^ j * b ^ j + num % b ^ j) := by ring
      _ = acc * (b ^ j * b) + num := by omega

theorem decode_bePad {b j num : Nat} {a : List Char} (hb : 2 ≤ b)
    (hidx : ∀ d, d < b → a.indexOf (a.getD d ' ') = d) (h : num < b ^ j) :
    decode b a ((bePad b j num).map (fun d => a.getD d ' ')) = num := by
  unfold decode
  rw [decode_foldl hb hidx j 0 num h]
  ring

/-! ## `init_helper_data` -/

/-- One ignored-result call of `append_helper_data` (as in
`init_helper_data`) preserves the table invariant. -/
theorem append_step {b w : Nat} {ps : List Nat} (hb : 2 ≤ b) (hps : powsOf b ps)
    (hlen : 1 ≤ ps.length) (htop : b ^ (ps.length - 1) < 2 ^ w) :
    powsOf b ((append_helper_data b w ps).getD ps) ∧
    ps.length ≤ ((append_helper_data b w ps).getD ps).length ∧
    b ^ (((append_helper_data b w ps).getD ps).length - 1) < 2 ^ w := by
  by_cases hfit : b ^ ps.length < 2 ^ w
  · rw [append_helper_some hps hlen (by omega) hfit]
    simp only [Option.getD_some]
    refine ⟨powsOf_append hps, by simp, ?_⟩
    simpa using hfit
  · rw [append_helper_none hps hlen (by omega) (by omega)]
    simp only [Option.getD_none]
    exact ⟨hps, le_refl _, htop⟩

theorem powsOf_one {b : Nat} : powsOf b [1] := by
  unfold powsOf
  rw [List.length_cons, List.length_nil, List.range_succ, List.range_zero]
  simp

theorem powsOf_one_b {b : Nat} : powsOf b [1, b] := by
  have h : [1, b] = [1] ++ [b ^ [1].length] := by simp
  rw [h]
  exact powsOf_append powsOf_one

theorem init_helper_step1 {b w : Nat} (hb : 2 ≤ b) (hbw : b < 2 ^ w) :
    append_helper_data b w [1] = some [1, b] := by
  have h := append_helper_some powsOf_one (by simp) (show 1 ≤ b by omega)
    (by simpa using hbw)
  simpa using h

theorem init_helper_spec {b w : Nat} (hb : 2 ≤ b) (hbw : b < 2 ^ w) :
    powsOf b (init_helper_data b w) ∧ 2 ≤ (init_helper_data b w).length ∧
    b ^ ((init_helper_data b w).length - 1) < 2 ^ w := by
  have hrw : init_helper_data b w =
      (append_helper_data b w
        ((append_helper_data b w [1, b]).getD [1, b])).getD
        ((append_helper_data b w [1, b]).getD [1, b]) := by
    unfold init_helper_data
    rw [init_helper_step1 hb hbw]
    rfl
  obtain ⟨hp2, hl2, ht2⟩ := append_step hb powsOf_one_b (by simp)
    (by simpa using hbw)
  simp only [List.length_cons, List.length_nil] at hl2
  obtain ⟨hp3, hl3, ht3⟩ := append_step hb hp2 (by omega) ht2
  rw [hrw]
  exact ⟨hp3, by omega, ht3⟩

/-- With four powers available, `init_helper_data` eagerly fills the four
seed rows `1, b, b², b³` (`DATA_INIT_LENGTH = 4`). -/
theorem init_helper_eq {b w : Nat} (hb : 2 ≤ b) (h3 : b ^ 3 < 2 ^ w) :
    init_helper_data b w = [1, b, b ^ 2, b ^ 3] := by
  have hmono : ∀ i j : Nat, i ≤ j → b ^ i ≤ b ^ j := fun i j h =>
    Nat.pow_le_pow_right (by omega) h
  have hbw : b < 2 ^ w := by
    have := hmono 1 3 (by omega)
    simp only [pow_one] at this
    omega
  have hp2 : powsOf b [1, b, b ^ 2] := by
    have h : [1, b, b ^ 2] = [1, b] ++ [b ^ [1, b].length] := by norm_num
    rw [h]
    exact powsOf_append powsOf_one_b
  have hs2 : append_helper_data b w [1, b] = some [1, b, b ^ 2] := by
    have h23 : b ^ 2 ≤ b ^ 3 := hmono 2 3 (by omega)
    have h := append_helper_some powsOf_one_b (by simp) (show 1 ≤ b by omega)
      (by
        show b ^ 2 < 2 ^ w
        omega)
    simpa using h
  have hs3 : append_helper_data b w [1, b, b ^ 2] = some [1, b, b ^ 2, b ^ 3] := by
    have h := append_helper_some hp2 (by simp) (show 1 ≤ b by omega)
      (by simpa using h3)
    simpa using h
  unfold init_helper_data
  rw [init_helper_step1 hb hbw]
  simp only [Option.getD_some]
  rw [hs2]
  simp only [Option.getD_some]
  rw [hs3]
  rfl

/-! ## Default alphabet -/

set_option maxRecDepth 4000 in
/-- Reading a digit's character back through the default alphabet recovers
the digit (the default alphabet has pairwise distinct characters). -/
theorem default_alphabet_indexOf :
    ∀ b < 37, ∀ d < b, (setup_default_alphabet b).indexOf
      ((setup_default_alphabet b).getD d ' ') = d := by decide

/-! ## The digit-pair table -/

theorem getD_append_left {α : Type} (l1 l2 : List α) (i : Nat) (c : α)
    (h : i < l1.length) : (l1 ++ l2).getD i c = l1.getD i c := by
  rw [List.getD_eq_getElem?_getD, List.getD_eq_getElem?_getD,
    List.getElem?_append, if_pos h]

theorem getD_append_right {α : Type} (l1 l2 : List α) (i : Nat) (c : α)
    (h : l1.length ≤ i) : (l1 ++ l2).getD i c = l2.getD (i - l1.length) c := by
  rw [List.getD_eq_getElem?_getD, List.getD_eq_getElem?_getD,
    List.getElem?_append, if_neg (by omega)]

theorem flatMap_range_length {α : Type} (f : Nat → List α) (L : Nat)
    (hL : ∀ i, (f i).length = L) :
    ∀ n, ((List.range n).flatMap f).length = n * L := by
  intro n
  induction n with
  | zero => simp
  | succ n ih =>
    rw [List.range_succ, List.flatMap_append, List.length_append, ih]
    simp only [List.flatMap_cons, List.flatMap_nil, List.append_nil, hL]
    ring

theorem flatMap_range_getD {α : Type} (f : Nat → List α) (L : Nat)
    (hL : ∀ i, (f i).length = L) (c : α) :
    ∀ (n q r : Nat), q < n → r < L →
      ((List.range n).flatMap f).getD (q * L + r) c = (f q).getD r c := by
  intro n
  induction n with
  | zero => omega
  | succ n ih =>
    intro q r hq hr
    rw [List.range_succ, List.flatMap_append]
    simp only [List.flatMap_cons, List.flatMap_nil, List.append_nil]
    by_cases hqn : q < n
    · rw [getD_append_left]
      · exact ih q r hqn hr
      · rw [flatMap_range_length f L hL]
        have : q + 1 ≤ n := hqn
        calc q * L + r < q * L + L := by omega
        _ = (q + 1) * L := by ring
        _ ≤ n * L := Nat.mul_le_mul_right L this
    · have hqe : q = n := by omega
      subst hqe
      rw [getD_append_right]
      · rw [flatMap_range_length f L hL]
        congr 1
        omega
      · rw [flatMap_range_length f L hL]
        omega

/-- Entry `2·d2` of the digit-pair table is the character of the pair's
high digit `d2 / base`, entry `2·d2 + 1` that of the low digit
`d2 % base`. -/
theorem alphabet_sqr_getD {b d2 : Nat} (a : List Char) (hd2 : d2 < b * b) :
    (calculate_alphabet_sqr b a).getD (2 * d2) ' ' = a.getD (d2 / b) ' ' ∧
    (calculate_alphabet_sqr b a).getD (2 * d2 + 1) ' ' = a.getD (d2 % b) ' ' := by
  have hb0 : 0 < b := by
    rcases Nat.eq_zero_or_pos b with h | h
    · subst h; simp at hd2
    · exact h
  have key := Nat.div_add_mod d2 b
  have hq : d2 / b < b := (Nat.div_lt_iff_lt_mul hb0).mpr hd2
  have hr : d2 % b < b := Nat.mod_lt _ hb0
  have houterlen : ∀ i : Nat, ((fun i => (List.range b).flatMap
      (fun j => [a.getD i ' ', a.getD j ' '])) i).length = b * 2 :=
    fun i => flatMap_range_length
      (fun j => [a.getD i ' ', a.getD j ' ']) 2 (fun j => rfl) b
  constructor
  · have hidx : 2 * d2 = (d2 / b) * (b * 2) + 2 * (d2 % b) := by
      calc 2 * d2 = 2 * (b * (d2 / b) + d2 % b) := by rw [key]
      _ = (d2 / b) * (b * 2) + 2 * (d2 % b) := by ring
    rw [calculate_alphabet_sqr, hidx,
      flatMap_range_getD _ (b * 2) houterlen ' ' b (d2 / b) (2 * (d2 % b)) hq
        (by omega)]
    have hidx2 : 2 * (d2 % b) = (d2 % b) * 2 + 0 := by ring
    rw [hidx2, flatMap_range_getD
      (fun j => [a.getD (d2 / b) ' ', a.getD j ' ']) 2 (fun j => rfl) ' ' b
      (d2 % b) 0 hr (by omega)]
    rfl
  · have hidx : 2 * d2 + 1 = (d2 / b) * (b * 2) + (2 * (d2 % b) + 1) := by
      calc 2 * d2 + 1 = 2 * (b * (d2 / b) + d2 % b) + 1 := by rw [key]
      _ = (d2 / b) * (b * 2) + (2 * (d2 % b) + 1) := by ring
    rw [calculate_alphabet_sqr, hidx,
      flatMap_range_getD _ (b * 2) houterlen ' ' b (d2 / b) (2 * (d2 % b) + 1) hq
        (by omega)]
    have hidx2 : 2 * (d2 % b) + 1 = (d2 % b) * 2 + 1 := by ring
    rw [hidx2, flatMap_range_getD
      (fun j => [a.getD (d2 / b) ' ', a.getD j ' ']) 2 (fun j => rfl) ' ' b
      (d2 % b) 1 hr (by omega)]
    rfl

/-! ## `modulo_printer_2_digits` specification -/

theorem modulo_chunks_2_zero {b : Nat} : modulo_chunks_2 b 0 = ([], 0) := by
  rw [modulo_chunks_2, dif_neg (by omega)]

theorem print_to_buffer_2_spec {b : Nat} (a : List Char) (hb : 2 ≤ b) :
    ∀ x, 1 ≤ x → print_to_buffer_2 b a (calculate_alphabet_sqr b a) x =
      (bePad b (Nat.log b x + 1) x).map (fun d => a.getD d ' ') := by
  intro x
  induction x using Nat.strong_induction_on with
  | _ x ih =>
    intro hx
    rw [print_to_buffer_2, if_neg (by omega)]
    by_cases hxb : x < b
    · have hc : modulo_chunks_2 b x = ([], x) := by
        rw [modulo_chunks_2, dif_neg (by omega)]
      rw [hc]
      have hlog : Nat.log b x = 0 := by
        rw [Nat.log_eq_zero_iff]; exact Or.inl hxb
      rw [hlog]
      have hbp : bePad b 1 x = [x] := by
        rw [bePad_succ]
        simp [bePad, Nat.mod_eq_of_lt hxb]
      rw [hbp]
      simp [if_pos (show 0 < x by omega)]
    · have hbx : b ≤ x := by omega
      have hbb1 : 1 < b * b := by nlinarith
      have hc : modulo_chunks_2 b x =
          (x % (b * b) :: (modulo_chunks_2 b (x / (b * b))).1,
            (modulo_chunks_2 b (x / (b * b))).2) := by
        rw [modulo_chunks_2, dif_pos ⟨hb, hbx⟩]
      rw [hc]
      simp only [List.reverse_cons, List.flatMap_append, List.flatMap_cons,
        List.flatMap_nil, List.append_nil]
      have hmodlt : x % (b * b) < b * b := Nat.mod_lt _ (by omega)
      obtain ⟨hhi, hlo⟩ := alphabet_sqr_getD a hmodlt
      have hm1 : x % (b * b) / b = x / b % b := Nat.mod_mul_right_div_self x b b
      have hm2 : x % (b * b) % b = x % b := Nat.mod_mod_of_dvd x ⟨b, rfl⟩
      by_cases hxq : x / (b * b) = 0
      · have hxbb : x < b * b := by
          by_contra hcon
          push_neg at hcon
          have h1 : 1 ≤ x / (b * b) := (Nat.one_le_div_iff (by omega)).mpr hcon
          omega
        rw [hxq, modulo_chunks_2_zero]
        simp only [List.reverse_nil, List.flatMap_nil, List.nil_append,
          if_neg (lt_irrefl 0)]
        have hmod : x % (b * b) = x := Nat.mod_eq_of_lt hxbb
        have hlog : Nat.log b x = 1 := by
          refine Nat.log_eq_of_pow_le_of_lt_pow (by simpa using hbx) ?_
          rw [pow_succ, pow_one]
          exact hxbb
        rw [hlog]
        have hxdb : x / b < b := (Nat.div_lt_iff_lt_mul (by omega)).mpr hxbb
        have hbp : bePad b 2 x = [x / b, x % b] := by
          rw [bePad_succ, bePad_succ]
          simp [bePad, pow_one, Nat.mod_eq_of_lt hxdb]
        rw [hmod] at hhi hlo
        rw [hbp, hmod, hhi, hlo]
        rfl
      · have hq1 : 1 ≤ x / (b * b) := Nat.one_le_iff_ne_zero.mpr hxq
        have hqlt : x / (b * b) < x := Nat.div_lt_self (by omega) hbb1
        have ihq := ih _ hqlt hq1
        have hfold : (if 0 < (modulo_chunks_2 b (x / (b * b))).2 then
              [a.getD (modulo_chunks_2 b (x / (b * b))).2 ' '] else []) ++
            (modulo_chunks_2 b (x / (b * b))).1.reverse.flatMap
              (fun pi => [(calculate_alphabet_sqr b a).getD (2 * pi) ' ',
                (calculate_alphabet_sqr b a).getD (2 * pi + 1) ' ']) =
            print_to_buffer_2 b a (calculate_alphabet_sqr b a) (x / (b * b)) := by
          rw [print_to_buffer_2, if_neg hxq]
        rw [← List.append_assoc, hfold, ihq]
        have hxbb : b * b ≤ x := by
          by_contra hcon
          push_neg at hcon
          have := Nat.div_eq_of_lt hcon
          omega
        have hlog2 : 2 ≤ Nat.log b x := by
          have h2 : b ^ 2 ≤ x := by
            rw [pow_succ, pow_one]
            exact hxbb
          exact (Nat.pow_le_iff_le_log (by omega) (by omega)).mp h2
        have hdd : x / (b * b) = x / b / b := (Nat.div_div_eq_div_mul x b b).symm
        have hlogq : Nat.log b (x / (b * b)) = Nat.log b x - 2 := by
          rw [hdd, Nat.log_div_base, Nat.log_div_base]
          omega
        have hsplit : bePad b (Nat.log b x + 1) x
            = bePad b (Nat.log b x - 2 + 1) (x / (b * b)) ++ [x / b % b, x % b] := by
          have e1 : Nat.log b x + 1 = (Nat.log b x - 2 + 1 + 1) + 1 := by omega
          rw [e1, bePad_div, bePad_div, ← hdd, List.append_assoc]
          rfl
        rw [hlogq, hsplit, List.map_append]
        congr 1
        rw [hhi, hlo, hm1, hm2]
        rfl

/-! ## `lr_printer_2_digits::get_max_power_ptr` specification

The double-stepping scan stops at the first even offset whose power
exceeds `num`; that offset is `log + 1` rounded up to even, and the
subsequent one-back/one-forward adjustment always lands on `log + 1`,
so the returned offset is `log - 1` (digit count minus 2). -/

theorem scan2_step_spec {b num : Nat} {ps : List Nat} (hps : powsOf b ps)
    (hb : 2 ≤ b) (hnum : 1 ≤ num)
    (he : Nat.log b num + 1 + (Nat.log b num + 1) % 2 ≤ ps.length - 1) :
    ∀ (fuel ptr : Nat), ptr % 2 = 0 →
      ptr ≤ Nat.log b num + 1 + (Nat.log b num + 1) % 2 →
      Nat.log b num + 1 + (Nat.log b num + 1) % 2 + 1 ≤ fuel + ptr →
      scan2_step ps num fuel ptr =
        Nat.log b num + 1 + (Nat.log b num + 1) % 2 := by
  set k1 := Nat.log b num + 1 with hk1
  set e := k1 + k1 % 2 with he2
  have hee : 2 ≤ e := by omega
  intro fuel
  induction fuel with
  | zero => intro ptr h0 h1 h2; omega
  | succ fuel ih =>
    intro ptr hp0 hple hfuel
    simp only [scan2_step]
    by_cases hpe : ptr = e
    · rw [hpe, powsOf_getD hps (by omega), if_neg]
      have hlt : num < b ^ e := by
        calc num < b ^ k1 := Nat.lt_pow_succ_log_self (by omega) num
        _ ≤ b ^ e := Nat.pow_le_pow_right (by omega) (by omega)
      omega
    · have hptrlog : ptr ≤ Nat.log b num := by omega
      rw [powsOf_getD hps (by omega), if_pos]
      · exact ih (ptr + 2) (by omega) (by omega) (by omega)
      · calc b ^ ptr ≤ b ^ Nat.log b num :=
            Nat.pow_le_pow_right (by omega) hptrlog
        _ ≤ num := Nat.pow_log_le_self b (by omega)

theorem scan_power_idx_2_spec {b num : Nat} {ps : List Nat}
    (hps : powsOf b ps) (hb : 2 ≤ b) (hnum : 1 ≤ num)
    (htop : num < b ^ (ps.length - 2)) :
    scan_power_idx_2 ps num = (Nat.log b num : Int) - 1 := by
  set k1 := Nat.log b num + 1 with hk1
  have hloglt : Nat.log b num < ps.length - 2 :=
    Nat.log_lt_of_lt_pow (by omega) htop
  have hlen3 : 3 ≤ ps.length := by omega
  have he : k1 + k1 % 2 ≤ ps.length - 1 := by omega
  have hstep := scan2_step_spec hps hb hnum he (ps.length + 2) 0 (by omega)
    (by omega) (by omega)
  simp only [scan_power_idx_2]
  rw [hstep]
  rw [powsOf_getD hps (by omega)]
  by_cases hpar : k1 % 2 = 0
  · rw [show k1 + k1 % 2 - 1 = Nat.log b num by omega]
    rw [if_pos (Nat.pow_log_le_self b (by omega))]
    omega
  · rw [show k1 + k1 % 2 - 1 = k1 by omega]
    rw [if_neg]
    · omega
    · have h2 : num < b ^ k1 := by
        rw [hk1]
        exact Nat.lt_pow_succ_log_self (by omega) num
      omega

theorem grow_powers_2_spec {b w num : Nat} (hb : 2 ≤ b) (hnum : 1 ≤ num)
    (hw : num < 2 ^ w) :
    ∀ (fuel : Nat) (ps : List Nat), powsOf b ps → 2 ≤ ps.length →
      b ^ (ps.length - 1) < 2 ^ w → w + 2 ≤ fuel + ps.length →
      ∀ {i : Int} {r : Bool} {qs : List Nat},
        grow_powers_2 b w num fuel ps = (i, r, qs) →
        i = (Nat.log b num : Int) - 1 ∧ powsOf b qs ∧ ps.length ≤ qs.length ∧
        b ^ (qs.length - 1) < 2 ^ w ∧
        (r = true → 2 ^ w ≤ b ^ qs.length) ∧
        Nat.log b num + 1 ≤ qs.length := by
  intro fuel
  induction fuel with
  | zero =>
    intro ps hps hlen htop hfuel
    have := powsOf_length_le hb (by omega) htop
    omega
  | succ fuel ih =>
    intro ps hps hlen htop hfuel i r qs hgrow
    rw [grow_powers_2, powsOf_getD hps (show ps.length - 2 < ps.length by omega)]
      at hgrow
    by_cases hle : b ^ (ps.length - 2) ≤ num
    · rw [if_pos hle] at hgrow
      by_cases hfit : b ^ ps.length < 2 ^ w
      · rw [append_helper_some hps (by omega) (by omega) hfit] at hgrow
        have h2 := ih (ps ++ [b ^ ps.length]) (powsOf_append hps)
          (by simp only [List.length_append, List.length_singleton]; omega)
          (by simpa using hfit)
          (by simp only [List.length_append, List.length_singleton]; omega) hgrow
        refine ⟨h2.1, h2.2.1, ?_, h2.2.2.2⟩
        have := h2.2.2.1
        simp only [List.length_append, List.length_singleton] at this
        omega
      · rw [append_helper_none hps (by omega) (by omega) (by omega),
          powsOf_getLastD hps (by omega)] at hgrow
        by_cases htople : b ^ (ps.length - 1) ≤ num
        · rw [if_pos htople] at hgrow
          simp only [Prod.mk.injEq] at hgrow
          obtain ⟨hi, hr, hqs⟩ := hgrow
          subst hqs
          have hlog : Nat.log b num = ps.length - 1 := by
            refine Nat.log_eq_of_pow_le_of_lt_pow htople ?_
            have h1 : ps.length - 1 + 1 = ps.length := by omega
            rw [h1]; omega
          exact ⟨by omega, hps, le_refl _, htop, fun _ => by omega, by omega⟩
        · rw [if_neg htople] at hgrow
          simp only [Prod.mk.injEq] at hgrow
          obtain ⟨hi, hr, hqs⟩ := hgrow
          subst hqs
          have hlog : Nat.log b num = ps.length - 2 := by
            refine Nat.log_eq_of_pow_le_of_lt_pow hle ?_
            have h1 : ps.length - 2 + 1 = ps.length - 1 := by omega
            rw [h1]; omega
          exact ⟨by omega, hps, le_refl _, htop, fun _ => by omega, by omega⟩
    · rw [if_neg hle] at hgrow
      simp only [Prod.mk.injEq] at hgrow
      obtain ⟨hi, hr, hqs⟩ := hgrow
      subst hqs
      have hscan := scan_power_idx_2_spec hps hb hnum (by omega)
      have hlog : Nat.log b num < ps.length - 2 :=
        Nat.log_lt_of_lt_pow (by omega) (by omega)
      exact ⟨by rw [← hi, hscan], hps, le_refl _, htop,
        fun hrt => absurd (hr.trans hrt) (by simp), by omega⟩

theorem get_max_power_ptr_2_spec {b w num : Nat} {reached : Bool}
    {ps : List Nat} (hb : 2 ≤ b) (hnum : 1 ≤ num) (hw : num < 2 ^ w)
    (hps : powsOf b ps) (hlen : 2 ≤ ps.length)
    (htop : b ^ (ps.length - 1) < 2 ^ w)
    (hreach : reached = true → 2 ^ w ≤ b ^ ps.length) :
    ∀ {i : Int} {r : Bool} {qs : List Nat},
      get_max_power_ptr_2 b w num reached ps = (i, r, qs) →
      i = (Nat.log b num : Int) - 1 ∧ powsOf b qs ∧ ps.length ≤ qs.length ∧
      b ^ (qs.length - 1) < 2 ^ w ∧
      (r = true → 2 ^ w ≤ b ^ qs.length) ∧
      Nat.log b num + 1 ≤ qs.length := by
  intro i r qs hrun
  unfold get_max_power_ptr_2 at hrun
  cases reached with
  | true =>
    rw [if_pos rfl, powsOf_getD hps (show ps.length - 2 < ps.length by omega),
      powsOf_getLastD hps (by omega)] at hrun
    have hsat := hreach rfl
    by_cases hle : b ^ (ps.length - 2) ≤ num
    · rw [if_pos hle] at hrun
      by_cases htople : b ^ (ps.length - 1) ≤ num
      · rw [if_pos htople] at hrun
        simp only [Prod.mk.injEq] at hrun
        obtain ⟨hi, hr, hqs⟩ := hrun
        subst hqs
        have hlog : Nat.log b num = ps.length - 1 := by
          refine Nat.log_eq_of_pow_le_of_lt_pow htople ?_
          have h1 : ps.length - 1 + 1 = ps.length := by omega
          rw [h1]; omega
        exact ⟨by omega, hps, le_refl _, htop, fun _ => hsat, by omega⟩
      · rw [if_neg htople] at hrun
        simp only [Prod.mk.injEq] at hrun
        obtain ⟨hi, hr, hqs⟩ := hrun
        subst hqs
        have hlog : Nat.log b num = ps.length - 2 := by
          refine Nat.log_eq_of_pow_le_of_lt_pow hle ?_
          have h1 : ps.length - 2 + 1 = ps.length - 1 := by omega
          rw [h1]; omega
        exact ⟨by omega, hps, le_refl _, htop, fun _ => hsat, by omega⟩
    · rw [if_neg hle] at hrun
      simp only [Prod.mk.injEq] at hrun
      obtain ⟨hi, hr, hqs⟩ := hrun
      subst hqs
      have hscan := scan_power_idx_2_spec hps hb hnum (by omega)
      have hlog : Nat.log b num < ps.length - 2 :=
        Nat.log_lt_of_lt_pow (by omega) (by omega)
      exact ⟨by rw [← hi, hscan], hps, le_refl _, htop, fun _ => hsat, by omega⟩
  | false =>
    rw [if_neg (by simp)] at hrun
    exact grow_powers_2_spec hb hnum hw (w + 1) ps hps hlen htop (by omega) hrun

/-! ## `lr_printer_2_digits::print_to_out_iter` specification -/

theorem bePad_one {b num : Nat} (h : num < b) : bePad b 1 num = [num] := by
  rw [bePad_succ]
  simp [bePad, Nat.mod_eq_of_lt h]

theorem bePad_two {b num : Nat} (hb : 0 < b) (h : num < b * b) :
    bePad b 2 num = [num / b, num % b] := by
  have hdb : num / b < b := (Nat.div_lt_iff_lt_mul hb).mpr h
  rw [bePad_succ, bePad_succ]
  simp [bePad, pow_one, Nat.mod_eq_of_lt hdb]

/-- The state of the pair loop when `power_ptr` has fallen below
`_powers + 1`: the remaining one or two digits and their rendering. -/
theorem lr2_terminal {b : Nat} (a : List Char) (hb : 2 ≤ b) (k : Int)
    (num : Nat) (hk : k = 0 ∨ k = -1) (hnum : num < b ^ (k + 2).toNat) :
    num = num % b ^ (k + 2).toNat ∧
    ([] : List Char) ++ (if k = 0 then
        [(calculate_alphabet_sqr b a).getD (num * 2) ' ',
         (calculate_alphabet_sqr b a).getD (num * 2 + 1) ' ']
      else [a.getD num ' ']) =
      (bePad b (k + 2).toNat num).map (fun d => a.getD d ' ') := by
  rcases hk with hk | hk
  · subst hk
    have h2 : ((0 : Int) + 2).toNat = 2 := rfl
    rw [h2] at hnum ⊢
    have hbb : num < b * b := by
      rw [pow_two] at hnum
      exact hnum
    obtain ⟨hhi, hlo⟩ := alphabet_sqr_getD a hbb
    rw [if_pos rfl, bePad_two (by omega) hbb, mul_comm num 2, hhi, hlo]
    exact ⟨(Nat.mod_eq_of_lt hnum).symm, rfl⟩
  · subst hk
    have h1 : ((-1 : Int) + 2).toNat = 1 := rfl
    rw [h1] at hnum ⊢
    rw [if_neg (by norm_num), bePad_one (by simpa using hnum)]
    exact ⟨(Nat.mod_eq_of_lt hnum).symm, rfl⟩

theorem lr2_loop_spec {b : Nat} {a : List Char} {ps : List Nat}
    (hb : 2 ≤ b) (hps : powsOf b ps) :
    ∀ (fuel : Nat) (k : Int) (num : Nat), -1 ≤ k → k < (ps.length : Int) →
      k < (fuel : Int) → num < b ^ (k + 2).toNat →
      ∀ {out : List Char} {k2 : Int} {fin : Nat},
        lr2_loop (calculate_alphabet_sqr b a) ps fuel k num = (out, k2, fin) →
        (k2 = 0 ∨ k2 = -1) ∧ k2 ≤ k ∧ fin = num % b ^ (k2 + 2).toNat ∧
        out ++ (if k2 = 0 then
            [(calculate_alphabet_sqr b a).getD (fin * 2) ' ',
             (calculate_alphabet_sqr b a).getD (fin * 2 + 1) ' ']
          else [a.getD fin ' ']) =
          (bePad b (k + 2).toNat num).map (fun d => a.getD d ' ') := by
  intro fuel
  induction fuel with
  | zero =>
    intro k num hkm1 hklen hkf hnum out k2 fin hp
    simp only [lr2_loop, Prod.mk.injEq] at hp
    obtain ⟨hout, hk2, hfin⟩ := hp
    have hk : k = -1 := by omega
    subst hout; subst hk2; subst hfin; subst hk
    obtain ⟨hm, he⟩ := lr2_terminal a hb (-1) num (Or.inr rfl) hnum
    exact ⟨Or.inr rfl, le_refl _, hm, he⟩
  | succ fuel ih =>
    intro k num hkm1 hklen hkf hnum out k2 fin hp
    simp only [lr2_loop] at hp
    by_cases hk1 : 1 ≤ k
    · rw [if_pos hk1] at hp
      have hknlt : k.toNat < ps.length := by omega
      rw [powsOf_getD hps hknlt] at hp
      have hk2n : (k + 2).toNat = k.toNat + 2 := by omega
      have hpow : 0 < b ^ k.toNat := Nat.pos_pow_of_pos _ (by omega)
      have hsub : num - num / b ^ k.toNat * b ^ k.toNat = num % b ^ k.toNat :=
        Nat.sub_eq_of_eq_add (Nat.mod_add_div' num (b ^ k.toNat)).symm
      rw [hsub] at hp
      rcases hE2 : lr2_loop (calculate_alphabet_sqr b a) ps fuel (k - 2)
          (num % b ^ k.toNat) with ⟨out2, k22, fin2⟩
      rw [hE2] at hp
      simp only [Prod.mk.injEq] at hp
      obtain ⟨hout, hk2e, hfine⟩ := hp
      have hnum2 : num % b ^ k.toNat < b ^ ((k - 2) + 2).toNat := by
        have h1 : ((k - 2) + 2).toNat = k.toNat := by omega
        rw [h1]
        exact Nat.mod_lt _ hpow
      obtain ⟨hor, hle2, hfin2, hout2⟩ := ih (k - 2) (num % b ^ k.toNat)
        (by omega) (by omega) (by omega) hnum2 hE2
      have hd2bb : num / b ^ k.toNat < b * b := by
        rw [Nat.div_lt_iff_lt_mul hpow]
        calc num < b ^ (k.toNat + 2) := by rw [← hk2n]; exact hnum
        _ = b * b * b ^ k.toNat := by ring
      obtain ⟨hhi, hlo⟩ := alphabet_sqr_getD a hd2bb
      rw [mul_comm (num / b ^ k.toNat) 2, hhi, hlo] at hout
      subst hk2e
      subst hfine
      subst hout
      have hjkn : (k22 + 2).toNat ≤ k.toNat := by omega
      have hkm : (k - 2 + 2).toNat = k.toNat := by omega
      rw [hkm] at hout2
      refine ⟨hor, by omega, ?_, ?_⟩
      · rw [hfin2, Nat.mod_mod_of_dvd num (pow_dvd_pow b hjkn)]
      · have hdd : num / b ^ k.toNat / b = num / b ^ (k.toNat + 1) := by
          rw [Nat.div_div_eq_div_mul, ← pow_succ]
        have hlt1 : num / b ^ (k.toNat + 1) < b := by
          rw [Nat.div_lt_iff_lt_mul (Nat.pos_pow_of_pos _ (by omega))]
          calc num < b ^ (k.toNat + 2) := by rw [← hk2n]; exact hnum
          _ = b * b ^ (k.toNat + 1) := by ring
        rw [List.cons_append, List.cons_append, hk2n, bePad_succ, bePad_succ,
          ← bePad_mod]
        simp only [List.map_cons]
        rw [hdd, Nat.mod_eq_of_lt hlt1, hout2]
    · rw [if_neg hk1] at hp
      simp only [Prod.mk.injEq] at hp
      obtain ⟨hout, hk2, hfin⟩ := hp
      have hk : k = 0 ∨ k = -1 := by omega
      subst hout; subst hk2; subst hfin
      obtain ⟨hm, he⟩ := lr2_terminal a hb k num hk hnum
      exact ⟨hk, le_refl _, hm, he⟩

theorem print_to_out_iter_2_spec {b w num : Nat} {a : List Char}
    {reached : Bool} {ps : List Nat}
    (hb : 2 ≤ b) (hnum : 1 ≤ num) (hw : num < 2 ^ w) (hps : powsOf b ps)
    (hlen : 2 ≤ ps.length) (htop : b ^ (ps.length - 1) < 2 ^ w)
    (hreach : reached = true → 2 ^ w ≤ b ^ ps.length) :
    ∀ {out : List Char} {k2 : Int} {fin : Nat} {r : Bool} {qs : List Nat},
      print_to_out_iter_2 b w a (calculate_alphabet_sqr b a) reached ps num =
        (out, k2, fin, r, qs) →
      out = (bePad b (Nat.log b num + 1) num).map (fun d => a.getD d ' ') ∧
      (k2 = 0 ∨ k2 = -1) ∧ (k2 = 0 → fin < b * b) ∧ (k2 = -1 → fin < b) ∧
      powsOf b qs ∧ ps.length ≤ qs.length ∧ b ^ (qs.length - 1) < 2 ^ w ∧
      (r = true → 2 ^ w ≤ b ^ qs.length) := by
  intro out k2 fin r qs hp
  rcases hE : get_max_power_ptr_2 b w num reached ps with ⟨i, rr, qs2⟩
  obtain ⟨hi, hqs, hlee, htop2, hsat, hlog1⟩ :=
    get_max_power_ptr_2_spec hb hnum hw hps hlen htop hreach hE
  subst hi
  rw [print_to_out_iter_2, if_neg (by omega), hE] at hp
  simp only at hp
  rcases hL : lr2_loop (calculate_alphabet_sqr b a) qs2 (qs2.length + 2)
      ((Nat.log b num : Int) - 1) num with ⟨out1, k21, fin1⟩
  have hcond : num < b ^ (((Nat.log b num : Int) - 1) + 2).toNat := by
    have h1 : (((Nat.log b num : Int) - 1) + 2).toNat = Nat.log b num + 1 := by
      omega
    rw [h1]
    exact Nat.lt_pow_succ_log_self (by omega) num
  obtain ⟨hor, hle1, hfin1, hout1⟩ := lr2_loop_spec hb hqs (qs2.length + 2)
    _ num (by omega) (by omega) (by omega) hcond hL
  rw [hL] at hp
  simp only [Prod.mk.injEq] at hp
  obtain ⟨hout, hk2, hfin, hr, hq⟩ := hp
  subst hk2
  subst hfin
  subst hq
  subst hr
  have hbe : (((Nat.log b num : Int) - 1) + 2).toNat = Nat.log b num + 1 := by
    omega
  rw [hbe] at hout1
  rcases hor with h0 | h1
  · subst h0
    rw [if_pos rfl] at hout
    rw [if_pos rfl] at hout1
    refine ⟨by rw [← hout, ← hout1], Or.inl rfl, ?_, by norm_num, hqs, hlee,
      htop2, hsat⟩
    intro _
    rw [hfin1]
    have : ((0 : Int) + 2).toNat = 2 := rfl
    rw [this, pow_two]
    exact Nat.mod_lt _ (by positivity)
  · subst h1
    rw [if_neg (by norm_num), if_pos rfl] at hout
    rw [if_neg (by norm_num)] at hout1
    refine ⟨by rw [← hout, ← hout1], Or.inr rfl, by norm_num, ?_, hqs, hlee,
      htop2, hsat⟩
    intro _
    rw [hfin1]
    have h2 : (((-1) : Int) + 2).toNat = 1 := rfl
    rw [h2, pow_one]
    exact Nat.mod_lt _ (by omega)

/-! ## State invariants across sequences of prints (`C3`, `C10`) -/

/-- The claim-level power-table invariant (`C3`): entry `k` is `b ^ k`,
entry 0 is 1, entries strictly increase, every entry fits in the type, and
once `_reached_max_power` is set the top entry is the largest representable
power of the base. -/
def power_table_ok (b w : Nat) (st : Bool × List Nat) : Prop :=
  (∀ k, k < st.2.length → st.2.getD k 0 = b ^ k) ∧
  st.2.getD 0 0 = 1 ∧ 1 ≤ st.2.length ∧
  (∀ k, k + 1 < st.2.length → st.2.getD k 0 < st.2.getD (k + 1) 0) ∧
  b ^ (st.2.length - 1) < 2 ^ w ∧
  (st.1 = true → b ^ (st.2.length - 1) < 2 ^ w ∧ 2 ^ w ≤ b ^ st.2.length)

/-- The machine-level invariant carried through the proofs. -/
def lr_state_inv (b w : Nat) (st : Bool × List Nat) : Prop :=
  powsOf b st.2 ∧ 1 ≤ st.2.length ∧ b ^ (st.2.length - 1) < 2 ^ w ∧
  (st.1 = true → 2 ^ w ≤ b ^ st.2.length)

theorem lr_state_inv_ok {b w : Nat} {st : Bool × List Nat} (hb : 2 ≤ b)
    (h : lr_state_inv b w st) : power_table_ok b w st := by
  obtain ⟨hps, hlen, htop, hsat⟩ := h
  refine ⟨fun k hk => powsOf_getD hps hk 0, ?_, hlen, ?_, htop,
    fun ht => ⟨htop, hsat ht⟩⟩
  · rw [powsOf_getD hps (by omega) 0, pow_zero]
  · intro k hk
    rw [powsOf_getD hps (by omega) 0, powsOf_getD hps (by omega) 0]
    exact Nat.pow_lt_pow_right (by omega) (by omega)

theorem lr_print_step_inv {b w : Nat} {a : List Char} {st : Bool × List Nat}
    (hb : 2 ≤ b) (hinv : lr_state_inv b w st) {n : Nat} (hn : n < 2 ^ w) :
    lr_state_inv b w ((print_to_out_iter b w a st.1 st.2 n).2.2.1,
      (print_to_out_iter b w a st.1 st.2 n).2.2.2) ∧
    st.2.length ≤ (print_to_out_iter b w a st.1 st.2 n).2.2.2.length := by
  by_cases hn0 : n = 0
  · subst hn0
    rw [print_to_out_iter, if_pos rfl]
    exact ⟨hinv, le_refl _⟩
  · rcases hP : print_to_out_iter b w a st.1 st.2 n with ⟨o, f, r2, qs⟩
    obtain ⟨-, -, hq, hl, ht, hs, -⟩ := print_to_out_iter_spec hb (by omega) hn
      hinv.1 hinv.2.1 hinv.2.2.1 hinv.2.2.2 hP
    exact ⟨⟨hq, by show 1 ≤ qs.length; have := hinv.2.1; omega, ht, hs⟩, hl⟩

/-- The two-digit variant keeps the extra `2 ≤ length` fact. -/
def lr2_state_inv (b w : Nat) (st : Bool × List Nat) : Prop :=
  powsOf b st.2 ∧ 2 ≤ st.2.length ∧ b ^ (st.2.length - 1) < 2 ^ w ∧
  (st.1 = true → 2 ^ w ≤ b ^ st.2.length)

theorem lr2_print_step_inv {b w : Nat} {a : List Char} {st : Bool × List Nat}
    (hb : 2 ≤ b) (hinv : lr2_state_inv b w st) {n : Nat} (hn : n < 2 ^ w) :
    lr2_state_inv b w
      ((print_to_out_iter_2 b w a (calculate_alphabet_sqr b a) st.1 st.2
          n).2.2.2.1,
        (print_to_out_iter_2 b w a (calculate_alphabet_sqr b a) st.1 st.2
          n).2.2.2.2) ∧
    st.2.length ≤ (print_to_out_iter_2 b w a (calculate_alphabet_sqr b a)
      st.1 st.2 n).2.2.2.2.length := by
  by_cases hn0 : n = 0
  · subst hn0
    rw [print_to_out_iter_2, if_pos rfl]
    exact ⟨hinv, le_refl _⟩
  · rcases hP : print_to_out_iter_2 b w a (calculate_alphabet_sqr b a) st.1
        st.2 n with ⟨o, k2, f, r2, qs⟩
    obtain ⟨-, -, -, -, hq, hl, ht, hs⟩ := print_to_out_iter_2_spec hb
      (by omega) hn hinv.1 hinv.2.1 hinv.2.2.1 hinv.2.2.2 hP
    exact ⟨⟨hq, by show 2 ≤ qs.length; have := hinv.2.1; omega, ht, hs⟩, hl⟩

theorem lr_run_inv {b w : Nat} (hb : 2 ≤ b) (hbw : b < 2 ^ w)
    (nums : List Nat) (hnums : ∀ n ∈ nums, n < 2 ^ w) :
    lr_state_inv b w (lr_run b w nums) := by
  have hinit := init_helper_spec hb hbw
  rw [lr_run]
  have hgen : ∀ (l : List Nat) (st : Bool × List Nat), lr_state_inv b w st →
      (∀ n ∈ l, n < 2 ^ w) →
      lr_state_inv b w (l.foldl (fun st n =>
        let r := print_to_out_iter b w (setup_default_alphabet b) st.1 st.2 n
        (r.2.2.1, r.2.2.2)) st) := by
    intro l
    induction l with
    | nil => intro st h _; exact h
    | cons n t ih =>
      intro st h hns
      simp only [List.foldl_cons]
      exact ih _ (lr_print_step_inv hb h (hns n (by simp))).1
        (fun m hm => hns m (by simp [hm]))
  exact hgen nums (false, init_helper_data b w)
    ⟨hinit.1, by exact le_trans (by omega) hinit.2.1, hinit.2.2, by simp⟩ hnums

theorem lr2_run_inv {b w : Nat} (hb : 2 ≤ b) (hbw : b < 2 ^ w)
    (nums : List Nat) (hnums : ∀ n ∈ nums, n < 2 ^ w) :
    lr2_state_inv b w (lr2_run b w nums) := by
  have hinit := init_helper_spec hb hbw
  rw [lr2_run]
  have hgen : ∀ (l : List Nat) (st : Bool × List Nat), lr2_state_inv b w st →
      (∀ n ∈ l, n < 2 ^ w) →
      lr2_state_inv b w (l.foldl (fun st n =>
        let r := print_to_out_iter_2 b w (setup_default_alphabet b)
          (calculate_alphabet_sqr b (setup_default_alphabet b)) st.1 st.2 n
        (r.2.2.2.1, r.2.2.2.2)) st) := by
    intro l
    induction l with
    | nil => intro st h _; exact h
    | cons n t ih =>
      intro st h hns
      simp only [List.foldl_cons]
      exact ih _ (lr2_print_step_inv hb h (hns n (by simp))).1
        (fun m hm => hns m (by simp [hm]))
  exact hgen nums (false, init_helper_data b w)
    ⟨hinit.1, hinit.2.1, hinit.2.2, by simp⟩ hnums

/-- Once `_reached_max_power` is set, `lr_printer` never touches the table
again: any further print leaves the state unchanged. -/
theorem print_reached_frozen (b w : Nat) (a : List Char) (ps : List Nat)
    (num : Nat) : (print_to_out_iter b w a true ps num).2.2 = (true, ps) := by
  by_cases h : num = 0
  · rw [print_to_out_iter, if_pos h]
  · rw [print_to_out_iter, if_neg h]
    simp only [get_max_power_ptr, if_pos]
    by_cases h2 : ps.getLastD 0 ≤ num
    · rw [if_pos h2]
    · rw [if_neg h2]

/-- Once `_reached_max_power` is set, `lr_printer_2_digits` never touches
the table again. -/
theorem print_2_reached_frozen (b w : Nat) (a sqr : List Char)
    (ps : List Nat) (num : Nat) :
    (print_to_out_iter_2 b w a sqr true ps num).2.2.2 = (true, ps) := by
  by_cases h : num = 0
  · rw [print_to_out_iter_2, if_pos h]
  · rw [print_to_out_iter_2, if_neg h]
    simp only [get_max_power_ptr_2, if_pos]
    by_cases h2 : ps.getD (ps.length - 2) 0 ≤ num
    · rw [if_pos h2]
      by_cases h3 : ps.getLastD 0 ≤ num
      · rw [if_pos h3]
      · rw [if_neg h3]
    · rw [if_neg h2]

/-! ## Canonical-output lemmas at a freshly constructed state -/

theorem b_lt_two_pow {b w : Nat} (hb36 : b ≤ 36) (hw : 6 ≤ w) : b < 2 ^ w :=
  lt_of_le_of_lt hb36 (lt_of_lt_of_le (by norm_num)
    (Nat.pow_le_pow_right (by norm_num) hw))

theorem lr_print_zero (b w : Nat) (a : List Char) (reached : Bool)
    (ps : List Nat) :
    print_to_out_iter b w a reached ps 0 = ([a.getD 0 ' '], 0, reached, ps) := by
  rw [print_to_out_iter, if_pos rfl]

theorem lr2_print_zero (b w : Nat) (a sqr : List Char) (reached : Bool)
    (ps : List Nat) :
    print_to_out_iter_2 b w a sqr reached ps 0 =
      ([a.getD 0 ' '], 0, 0, reached, ps) := by
  rw [print_to_out_iter_2, if_pos rfl]

theorem mp_print_zero (b : Nat) (a : List Char) :
    print_to_buffer b a 0 = [a.getD 0 ' '] := by
  rw [print_to_buffer, if_pos rfl]

theorem mp2_print_zero (b : Nat) (a sqr : List Char) :
    print_to_buffer_2 b a sqr 0 = [a.getD 0 ' '] := by
  rw [print_to_buffer_2, if_pos rfl]

theorem lr_print_canon {b w v : Nat} (hb : 2 ≤ b) (hbw : b < 2 ^ w)
    (hv1 : 1 ≤ v) (hv : v < 2 ^ w) (a : List Char) :
    (print_to_out_iter b w a false (init_helper_data b w) v).1 =
      (bePad b (Nat.log b v + 1) v).map (fun d => a.getD d ' ') := by
  have hinit := init_helper_spec hb hbw
  rcases hP : print_to_out_iter b w a false (init_helper_data b w) v
    with ⟨o, f, r2, qs⟩
  obtain ⟨ho, -, -, -, -, -, -⟩ := print_to_out_iter_spec hb hv1 hv hinit.1
    (le_trans (by omega) hinit.2.1) hinit.2.2 (by simp) hP
  exact ho

theorem lr_print_rem {b w v : Nat} (hb : 2 ≤ b) (hbw : b < 2 ^ w)
    (hv1 : 1 ≤ v) (hv : v < 2 ^ w) (a : List Char) :
    (print_to_out_iter b w a false (init_helper_data b w) v).2.1 = 0 := by
  have hinit := init_helper_spec hb hbw
  rcases hP : print_to_out_iter b w a false (init_helper_data b w) v
    with ⟨o, f, r2, qs⟩
  obtain ⟨-, hf, -, -, -, -, -⟩ := print_to_out_iter_spec hb hv1 hv hinit.1
    (le_trans (by omega) hinit.2.1) hinit.2.2 (by simp) hP
  exact hf

theorem lr2_print_canon {b w v : Nat} (hb : 2 ≤ b) (hbw : b < 2 ^ w)
    (hv1 : 1 ≤ v) (hv : v < 2 ^ w) (a : List Char) :
    (print_to_out_iter_2 b w a (calculate_alphabet_sqr b a) false
        (init_helper_data b w) v).1 =
      (bePad b (Nat.log b v + 1) v).map (fun d => a.getD d ' ') := by
  have hinit := init_helper_spec hb hbw
  rcases hP : print_to_out_iter_2 b w a (calculate_alphabet_sqr b a) false
      (init_helper_data b w) v with ⟨o, k2, f, r2, qs⟩
  obtain ⟨ho, -, -, -, -, -, -, -⟩ := print_to_out_iter_2_spec hb hv1 hv
    hinit.1 hinit.2.1 hinit.2.2 (by simp) hP
  exact ho

theorem lr2_print_asserts {b w v : Nat} (hb : 2 ≤ b) (hbw : b < 2 ^ w)
    (hv1 : 1 ≤ v) (hv : v < 2 ^ w) (a : List Char) :
    ((print_to_out_iter_2 b w a (calculate_alphabet_sqr b a) false
        (init_helper_data b w) v).2.1 = 0 ∨
     (print_to_out_iter_2 b w a (calculate_alphabet_sqr b a) false
        (init_helper_data b w) v).2.1 = -1) ∧
    ((print_to_out_iter_2 b w a (calculate_alphabet_sqr b a) false
        (init_helper_data b w) v).2.1 = 0 →
      (print_to_out_iter_2 b w a (calculate_alphabet_sqr b a) false
        (init_helper_data b w) v).2.2.1 < b * b) ∧
    ((print_to_out_iter_2 b w a (calculate_alphabet_sqr b a) false
        (init_helper_data b w) v).2.1 = -1 →
      (print_to_out_iter_2 b w a (calculate_alphabet_sqr b a) false
        (init_helper_data b w) v).2.2.1 < b) := by
  have hinit := init_helper_spec hb hbw
  rcases hP : print_to_out_iter_2 b w a (calculate_alphabet_sqr b a) false
      (init_helper_data b w) v with ⟨o, k2, f, r2, qs⟩
  obtain ⟨-, hor, h0, h1, -, -, -, -⟩ := print_to_out_iter_2_spec hb hv1 hv
    hinit.1 hinit.2.1 hinit.2.2 (by simp) hP
  exact ⟨hor, h0, h1⟩

/-! ## Claim theorems -/

/-- `C1` — Round-trip: for every value `v` representable in a `w`-bit
numeric type and every base `b` in `[2, 36]` with the default alphabet,
reading the characters produced by the encode operation back through the
alphabet's digit-to-character mapping and recomputing the integer yields
exactly `v`, for each of the four strategy classes (`lr_printer`,
`lr_printer_2_digits`, `modulo_printer`, `modulo_printer_2_digits`). -/
theorem C1_round_trip (b w v : Nat) (hb : 2 ≤ b) (hb36 : b ≤ 36)
    (hw : 6 ≤ w) (hv : v < 2 ^ w) :
    decode b (setup_default_alphabet b)
      (print_to_out_iter b w (setup_default_alphabet b) false
        (init_helper_data b w) v).1 = v ∧
    decode b (setup_default_alphabet b)
      (print_to_out_iter_2 b w (setup_default_alphabet b)
        (calculate_alphabet_sqr b (setup_default_alphabet b)) false
        (init_helper_data b w) v).1 = v ∧
    decode b (setup_default_alphabet b)
      (print_to_buffer b (setup_default_alphabet b) v) = v ∧
    decode b (setup_default_alphabet b)
      (print_to_buffer_2 b (setup_default_alphabet b)
        (calculate_alphabet_sqr b (setup_default_alphabet b)) v) = v := by
  have hbw := b_lt_two_pow hb36 hw
  have hidx : ∀ d, d < b → (setup_default_alphabet b).indexOf
      ((setup_default_alphabet b).getD d ' ') = d :=
    fun d hd => default_alphabet_indexOf b (by omega) d hd
  by_cases hv0 : v = 0
  · subst hv0
    have hz : decode b (setup_default_alphabet b)
        [(setup_default_alphabet b).getD 0 ' '] = 0 := by
      unfold decode
      simp only [List.foldl_cons, List.foldl_nil, Nat.zero_mul]
      rw [hidx 0 (by omega)]
    rw [lr_print_zero, lr2_print_zero, mp_print_zero, mp2_print_zero]
    exact ⟨hz, hz, hz, hz⟩
  · have hv1 : 1 ≤ v := by omega
    have hd := decode_bePad (a := setup_default_alphabet b) hb hidx
      (Nat.lt_pow_succ_log_self (show 1 < b by omega) v)
    rw [lr_print_canon hb hbw hv1 hv, lr2_print_canon hb hbw hv1 hv,
      print_to_buffer_spec hb hv1, print_to_buffer_2_spec _ hb v hv1]
    exact ⟨hd, hd, hd, hd⟩

theorem C1_round_trip_witness :
    decode 10 (setup_default_alphabet 10)
      (print_to_out_iter 10 32 (setup_default_alphabet 10) false
        (init_helper_data 10 32) 12345).1 = 12345 ∧
    decode 10 (setup_default_alphabet 10)
      (print_to_out_iter_2 10 32 (setup_default_alphabet 10)
        (calculate_alphabet_sqr 10 (setup_default_alphabet 10)) false
        (init_helper_data 10 32) 12345).1 = 12345 ∧
    decode 10 (setup_default_alphabet 10)
      (print_to_buffer 10 (setup_default_alphabet 10) 12345) = 12345 ∧
    decode 10 (setup_default_alphabet 10)
      (print_to_buffer_2 10 (setup_default_alphabet 10)
        (calculate_alphabet_sqr 10 (setup_default_alphabet 10)) 12345) =
      12345 :=
  C1_round_trip 10 32 12345 (by norm_num) (by norm_num) (by norm_num)
    (by norm_num)

/-- `C2` — Cross-strategy agreement: for every representable `v` and every
base supported by all four strategies, the four printers configured with
the same base and default alphabet emit character-for-character identical
text and report the same digit count. -/
theorem C2_cross_strategy (b w v : Nat) (hb : 2 ≤ b) (hb36 : b ≤ 36)
    (hw : 6 ≤ w) (hv : v < 2 ^ w) :
    (print_to_out_iter b w (setup_default_alphabet b) false
        (init_helper_data b w) v).1 =
      (print_to_out_iter_2 b w (setup_default_alphabet b)
        (calculate_alphabet_sqr b (setup_default_alphabet b)) false
        (init_helper_data b w) v).1 ∧
    (print_to_out_iter b w (setup_default_alphabet b) false
        (init_helper_data b w) v).1 =
      print_to_buffer b (setup_default_alphabet b) v ∧
    (print_to_out_iter b w (setup_default_alphabet b) false
        (init_helper_data b w) v).1 =
      print_to_buffer_2 b (setup_default_alphabet b)
        (calculate_alphabet_sqr b (setup_default_alphabet b)) v ∧
    (print_to_out_iter b w (setup_default_alphabet b) false
        (init_helper_data b w) v).1.length =
      (print_to_out_iter_2 b w (setup_default_alphabet b)
        (calculate_alphabet_sqr b (setup_default_alphabet b)) false
        (init_helper_data b w) v).1.length ∧
    (print_to_out_iter b w (setup_default_alphabet b) false
        (init_helper_data b w) v).1.length =
      (print_to_buffer b (setup_default_alphabet b) v).length ∧
    (print_to_out_iter b w (setup_default_alphabet b) false
        (init_helper_data b w) v).1.length =
      (print_to_buffer_2 b (setup_default_alphabet b)
        (calculate_alphabet_sqr b (setup_default_alphabet b)) v).length := by
  have hbw := b_lt_two_pow hb36 hw
  by_cases hv0 : v = 0
  · subst hv0
    rw [lr_print_zero, lr2_print_zero, mp_print_zero, mp2_print_zero]
    exact ⟨rfl, rfl, rfl, rfl, rfl, rfl⟩
  · have hv1 : 1 ≤ v := by omega
    rw [lr_print_canon hb hbw hv1 hv, lr2_print_canon hb hbw hv1 hv,
      print_to_buffer_spec hb hv1, print_to_buffer_2_spec _ hb v hv1]
    exact ⟨rfl, rfl, rfl, rfl, rfl, rfl⟩

theorem C2_cross_strategy_witness :
    (print_to_out_iter 16 32 (setup_default_alphabet 16) false
        (init_helper_data 16 32) 48879).1 =
      (print_to_out_iter_2 16 32 (setup_default_alphabet 16)
        (calculate_alphabet_sqr 16 (setup_default_alphabet 16)) false
        (init_helper_data 16 32) 48879).1 ∧
    (print_to_out_iter 16 32 (setup_default_alphabet 16) false
        (init_helper_data 16 32) 48879).1 =
      print_to_buffer 16 (setup_default_alphabet 16) 48879 ∧
    (print_to_out_iter 16 32 (setup_default_alphabet 16) false
        (init_helper_data 16 32) 48879).1 =
      print_to_buffer_2 16 (setup_default_alphabet 16)
        (calculate_alphabet_sqr 16 (setup_default_alphabet 16)) 48879 ∧
    (print_to_out_iter 16 32 (setup_default_alphabet 16) false
        (init_helper_data 16 32) 48879).1.length =
      (print_to_out_iter_2 16 32 (setup_default_alphabet 16)
        (calculate_alphabet_sqr 16 (setup_default_alphabet 16)) false
        (init_helper_data 16 32) 48879).1.length ∧
    (print_to_out_iter 16 32 (setup_default_alphabet 16) false
        (init_helper_data 16 32) 48879).1.length =
      (print_to_buffer 16 (setup_default_alphabet 16) 48879).length ∧
    (print_to_out_iter 16 32 (setup_default_alphabet 16) false
        (init_helper_data 16 32) 48879).1.length =
      (print_to_buffer_2 16 (setup_default_alphabet 16)
        (calculate_alphabet_sqr 16 (setup_default_alphabet 16))
        48879).length :=
  C2_cross_strategy 16 32 48879 (by norm_num) (by norm_num) (by norm_num)
    (by norm_num)

/-- `C5` — Remainder exhaustion: after the most-significant-first digit
loop has processed every cached power, the remaining value is exactly 0 in
`lr_printer` (so `assert( num == 0 )` cannot fail), and in
`lr_printer_2_digits` the final pointer offset is 0 or -1 with the
remaining value below `base²` resp. `base` (so its final-remainder range
asserts cannot fail). -/
theorem C5_remainder_exhaustion (b w v : Nat) (hb : 2 ≤ b) (hb36 : b ≤ 36)
    (hw : 6 ≤ w) (hv : v < 2 ^ w) :
    (print_to_out_iter b w (setup_default_alphabet b) false
        (init_helper_data b w) v).2.1 = 0 ∧
    ((print_to_out_iter_2 b w (setup_default_alphabet b)
        (calculate_alphabet_sqr b (setup_default_alphabet b)) false
        (init_helper_data b w) v).2.1 = 0 ∨
      (print_to_out_iter_2 b w (setup_default_alphabet b)
        (calculate_alphabet_sqr b (setup_default_alphabet b)) false
        (init_helper_data b w) v).2.1 = -1) ∧
    ((print_to_out_iter_2 b w (setup_default_alphabet b)
        (calculate_alphabet_sqr b (setup_default_alphabet b)) false
        (init_helper_data b w) v).2.1 = 0 →
      (print_to_out_iter_2 b w (setup_default_alphabet b)
        (calculate_alphabet_sqr b (setup_default_alphabet b)) false
        (init_helper_data b w) v).2.2.1 < b * b) ∧
    ((print_to_out_iter_2 b w (setup_default_alphabet b)
        (calculate_alphabet_sqr b (setup_default_alphabet b)) false
        (init_helper_data b w) v).2.1 = -1 →
      (print_to_out_iter_2 b w (setup_default_alphabet b)
        (calculate_alphabet_sqr b (setup_default_alphabet b)) false
        (init_helper_data b w) v).2.2.1 < b) := by
  have hbw := b_lt_two_pow hb36 hw
  by_cases hv0 : v = 0
  · subst hv0
    rw [lr_print_zero, lr2_print_zero]
    refine ⟨rfl, Or.inl rfl, fun _ => ?_, fun h => ?_⟩
    · show 0 < b * b
      positivity
    · have h2 : (0 : Int) = -1 := h
      exact absurd h2 (by decide)
  · have hv1 : 1 ≤ v := by omega
    obtain ⟨hor, h0, h1⟩ := lr2_print_asserts hb hbw hv1 hv
      (setup_default_alphabet b)
    exact ⟨lr_print_rem hb hbw hv1 hv _, hor, h0, h1⟩

theorem C5_remainder_exhaustion_witness :
    (print_to_out_iter 10 32 (setup_default_alphabet 10) false
        (init_helper_data 10 32) 98765).2.1 = 0 ∧
    ((print_to_out_iter_2 10 32 (setup_default_alphabet 10)
        (calculate_alphabet_sqr 10 (setup_default_alphabet 10)) false
        (init_helper_data 10 32) 98765).2.1 = 0 ∨
      (print_to_out_iter_2 10 32 (setup_default_alphabet 10)
        (calculate_alphabet_sqr 10 (setup_default_alphabet 10)) false
        (init_helper_data 10 32) 98765).2.1 = -1) ∧
    ((print_to_out_iter_2 10 32 (setup_default_alphabet 10)
        (calculate_alphabet_sqr 10 (setup_default_alphabet 10)) false
        (init_helper_data 10 32) 98765).2.1 = 0 →
      (print_to_out_iter_2 10 32 (setup_default_alphabet 10)
        (calculate_alphabet_sqr 10 (setup_default_alphabet 10)) false
        (init_helper_data 10 32) 98765).2.2.1 < 10 * 10) ∧
    ((print_to_out_iter_2 10 32 (setup_default_alphabet 10)
        (calculate_alphabet_sqr 10 (setup_default_alphabet 10)) false
        (init_helper_data 10 32) 98765).2.1 = -1 →
      (print_to_out_iter_2 10 32 (setup_default_alphabet 10)
        (calculate_alphabet_sqr 10 (setup_default_alphabet 10)) false
        (init_helper_data 10 32) 98765).2.2.1 < 10) :=
  C5_remainder_exhaustion 10 32 98765 (by norm_num) (by norm_num)
    (by norm_num) (by norm_num)

theorem bePad_length (b j num : Nat) : (bePad b j num).length = j := by
  simp [bePad]

/-- `C3` — Power-table invariant: after construction (`set_base`) and any
sequence of print calls on `lr_printer` or `lr_printer_2_digits`, the
table satisfies `_powers[k] = base ^ k`, entry 0 is 1, entries strictly
increase, and once `_reached_max_power` is set the table's top entry is
the largest representable power and no further print ever changes the
cache; construction eagerly seeds the four entries `1, b, b², b³`
whenever they fit. -/
theorem C3_power_table_invariant (b w : Nat) (nums : List Nat) (hb : 2 ≤ b)
    (hb36 : b ≤ 36) (hw : 6 ≤ w) (hnums : ∀ n ∈ nums, n < 2 ^ w) :
    power_table_ok b w (lr_run b w nums) ∧
    power_table_ok b w (lr2_run b w nums) ∧
    ((lr_run b w nums).1 = true → ∀ (m : Nat) (a2 : List Char),
      (print_to_out_iter b w a2 (lr_run b w nums).1
          (lr_run b w nums).2 m).2.2 =
        ((lr_run b w nums).1, (lr_run b w nums).2)) ∧
    ((lr2_run b w nums).1 = true → ∀ (m : Nat) (a2 sqr2 : List Char),
      (print_to_out_iter_2 b w a2 sqr2 (lr2_run b w nums).1
          (lr2_run b w nums).2 m).2.2.2 =
        ((lr2_run b w nums).1, (lr2_run b w nums).2)) ∧
    (b ^ 3 < 2 ^ w → init_helper_data b w = [1, b, b ^ 2, b ^ 3]) := by
  have hbw := b_lt_two_pow hb36 hw
  have inv1 := lr_run_inv hb hbw nums hnums
  have inv2 := lr2_run_inv hb hbw nums hnums
  refine ⟨lr_state_inv_ok hb inv1,
    lr_state_inv_ok hb ⟨inv2.1, le_trans (by omega) inv2.2.1, inv2.2.2⟩,
    ?_, ?_, fun h3 => init_helper_eq hb h3⟩
  · intro ht m a2
    rw [ht]
    exact print_reached_frozen b w a2 (lr_run b w nums).2 m
  · intro ht m a2 sqr2
    rw [ht]
    exact print_2_reached_frozen b w a2 sqr2 (lr2_run b w nums).2 m

theorem C3_power_table_invariant_witness :
    power_table_ok 10 32 (lr_run 10 32 [7, 2147483647]) ∧
    power_table_ok 10 32 (lr2_run 10 32 [7, 2147483647]) ∧
    ((lr_run 10 32 [7, 2147483647]).1 = true →
      ∀ (m : Nat) (a2 : List Char),
      (print_to_out_iter 10 32 a2 (lr_run 10 32 [7, 2147483647]).1
          (lr_run 10 32 [7, 2147483647]).2 m).2.2 =
        ((lr_run 10 32 [7, 2147483647]).1,
          (lr_run 10 32 [7, 2147483647]).2)) ∧
    ((lr2_run 10 32 [7, 2147483647]).1 = true →
      ∀ (m : Nat) (a2 sqr2 : List Char),
      (print_to_out_iter_2 10 32 a2 sqr2 (lr2_run 10 32 [7, 2147483647]).1
          (lr2_run 10 32 [7, 2147483647]).2 m).2.2.2 =
        ((lr2_run 10 32 [7, 2147483647]).1,
          (lr2_run 10 32 [7, 2147483647]).2)) ∧
    (10 ^ 3 < 2 ^ 32 → init_helper_data 10 32 = [1, 10, 10 ^ 2, 10 ^ 3]) :=
  C3_power_table_invariant 10 32 [7, 2147483647] (by norm_num) (by norm_num)
    (by norm_num) (by decide)

/-- `C4` counterexample — in `lr_printer_2_digits`, the power-cache lookup
at `num = 55`, base 10 (fresh 32-bit instance) returns the pointer offset
0 (power 1): the next cached power, 10, does **not** exceed 55, and the
cache is not saturated, nor is the returned entry the last one — refuting
the claimed postcondition for the paired strategy. -/
theorem C4_counterexample :
    (get_max_power_ptr_2 10 32 55 false (init_helper_data 10 32)).2.2 =
      [1, 10, 100, 1000] ∧
    (get_max_power_ptr_2 10 32 55 false (init_helper_data 10 32)).1 = 0 ∧
    (get_max_power_ptr_2 10 32 55 false (init_helper_data 10 32)).2.1 =
      false ∧
    (get_max_power_ptr_2 10 32 55 false
      (init_helper_data 10 32)).2.2.getD 0 0 ≤ 55 ∧
    (get_max_power_ptr_2 10 32 55 false
      (init_helper_data 10 32)).2.2.getD 1 0 ≤ 55 ∧
    (0 : Int).toNat + 1 ≠ (get_max_power_ptr_2 10 32 55 false
      (init_helper_data 10 32)).2.2.length := by decide

/-- `C4` amended — Leading-power postcondition: for `lr_printer`,
`get_max_power_ptr` returns a power `p ≤ num` and either the next cached
power exceeds `num` or the returned entry is the last one and the cache is
saturated.  For `lr_printer_2_digits`, the returned offset is instead
digit-count minus 2 (i.e. `log_b num - 1`, possibly `-1`): the power at it
(when the offset is non-negative) is `≤ num`, and it is the power **two**
positions above the returned one (not the next one) that exceeds `num`
whenever it is cached. -/
theorem C4_leading_power_amended (b w num : Nat) (reached : Bool)
    (ps : List Nat) (hb : 2 ≤ b) (hnum : 1 ≤ num) (hw2 : num < 2 ^ w)
    (hps : powsOf b ps) (hlen : 2 ≤ ps.length)
    (htop : b ^ (ps.length - 1) < 2 ^ w)
    (hreach : reached = true → 2 ^ w ≤ b ^ ps.length) :
    (get_max_power_ptr b w num reached ps).2.2.getD
        (get_max_power_ptr b w num reached ps).1.toNat 0 ≤ num ∧
    ((get_max_power_ptr b w num reached ps).1.toNat + 1 <
        (get_max_power_ptr b w num reached ps).2.2.length →
      num < (get_max_power_ptr b w num reached ps).2.2.getD
        ((get_max_power_ptr b w num reached ps).1.toNat + 1) 0) ∧
    ((get_max_power_ptr b w num reached ps).1.toNat + 1 =
        (get_max_power_ptr b w num reached ps).2.2.length →
      (get_max_power_ptr b w num reached ps).2.1 = true) ∧
    (get_max_power_ptr_2 b w num reached ps).1 =
      (Nat.log b num : Int) - 1 ∧
    (0 ≤ (get_max_power_ptr_2 b w num reached ps).1 →
      (get_max_power_ptr_2 b w num reached ps).2.2.getD
        (get_max_power_ptr_2 b w num reached ps).1.toNat 0 ≤ num) ∧
    (((get_max_power_ptr_2 b w num reached ps).1 + 2).toNat <
        (get_max_power_ptr_2 b w num reached ps).2.2.length →
      num < (get_max_power_ptr_2 b w num reached ps).2.2.getD
        ((get_max_power_ptr_2 b w num reached ps).1 + 2).toNat 0) := by
  have hb1 : 1 < b := by omega
  rcases hE : get_max_power_ptr b w num reached ps with ⟨i, r, qs⟩
  obtain ⟨hi, hqs, -, -, hsat, hlog1, hlast⟩ :=
    get_max_power_ptr_spec hb hnum hw2 hps (by omega) htop hreach hE
  rcases hE2 : get_max_power_ptr_2 b w num reached ps with ⟨i2, r2, qs2⟩
  obtain ⟨hi2, hqs2, -, -, -, hlog2⟩ :=
    get_max_power_ptr_2_spec hb hnum hw2 hps hlen htop hreach hE2
  subst hi
  subst hi2
  have hlogle : b ^ Nat.log b num ≤ num := Nat.pow_log_le_self b (by omega)
  have hloglt : num < b ^ (Nat.log b num + 1) :=
    Nat.lt_pow_succ_log_self hb1 num
  refine ⟨?_, ?_, hlast, rfl, ?_, ?_⟩
  · show qs.getD (Nat.log b num : Int).toNat 0 ≤ num
    rw [Int.toNat_natCast, powsOf_getD hqs (by omega)]
    exact hlogle
  · intro hnext
    rw [Int.toNat_natCast] at hnext ⊢
    rw [powsOf_getD hqs hnext]
    calc num < b ^ (Nat.log b num + 1) := hloglt
    _ ≤ b ^ (Nat.log b num + 1) := le_refl _
  · intro hpos
    have hl1 : 1 ≤ Nat.log b num := by omega
    have htn : ((Nat.log b num : Int) - 1).toNat = Nat.log b num - 1 := by
      omega
    rw [htn, powsOf_getD hqs2 (by omega)]
    calc b ^ (Nat.log b num - 1) ≤ b ^ Nat.log b num :=
        Nat.pow_le_pow_right (by omega) (by omega)
    _ ≤ num := hlogle
  · intro hnext
    have htn : ((Nat.log b num : Int) - 1 + 2).toNat = Nat.log b num + 1 := by
      omega
    rw [htn] at hnext ⊢
    rw [powsOf_getD hqs2 hnext]
    exact hloglt

theorem C4_leading_power_amended_witness :
    (get_max_power_ptr 10 32 55 false (init_helper_data 10 32)).2.2.getD
        (get_max_power_ptr 10 32 55 false (init_helper_data 10 32)).1.toNat
        0 ≤ 55 ∧
    ((get_max_power_ptr 10 32 55 false (init_helper_data 10 32)).1.toNat +
        1 < (get_max_power_ptr 10 32 55 false
          (init_helper_data 10 32)).2.2.length →
      55 < (get_max_power_ptr 10 32 55 false
          (init_helper_data 10 32)).2.2.getD
        ((get_max_power_ptr 10 32 55 false
          (init_helper_data 10 32)).1.toNat + 1) 0) ∧
    ((get_max_power_ptr 10 32 55 false (init_helper_data 10 32)).1.toNat +
        1 = (get_max_power_ptr 10 32 55 false
          (init_helper_data 10 32)).2.2.length →
      (get_max_power_ptr 10 32 55 false (init_helper_data 10 32)).2.1 =
        true) ∧
    (get_max_power_ptr_2 10 32 55 false (init_helper_data 10 32)).1 =
      (Nat.log 10 55 : Int) - 1 ∧
    (0 ≤ (get_max_power_ptr_2 10 32 55 false (init_helper_data 10 32)).1 →
      (get_max_power_ptr_2 10 32 55 false
          (init_helper_data 10 32)).2.2.getD
        (get_max_power_ptr_2 10 32 55 false
          (init_helper_data 10 32)).1.toNat 0 ≤ 55) ∧
    (((get_max_power_ptr_2 10 32 55 false (init_helper_data 10 32)).1 +
        2).toNat < (get_max_power_ptr_2 10 32 55 false
          (init_helper_data 10 32)).2.2.length →
      55 < (get_max_power_ptr_2 10 32 55 false
          (init_helper_data 10 32)).2.2.getD
        ((get_max_power_ptr_2 10 32 55 false
          (init_helper_data 10 32)).1 + 2).toNat 0) :=
  C4_leading_power_amended 10 32 55 false (init_helper_data 10 32)
    (by norm_num) (by norm_num) (by norm_num) (by exact rfl) (by decide)
    (by decide) (by simp)

/-- `C6` — Boundary value: encoding `INT_MAX = 2147483647` (32-bit type,
base 10) does not overflow the power cache: the divide-back check rejects
`10^10`, the cache saturates with `10^9` — the largest representable power
— as its top entry, and the printed text is the 10 digits
`"2147483647"`. -/
theorem C6_boundary_int_max :
    (print_to_out_iter 10 32 (setup_default_alphabet 10) false
        (init_helper_data 10 32) 2147483647).1 =
      ['2', '1', '4', '7', '4', '8', '3', '6', '4', '7'] ∧
    (print_to_out_iter 10 32 (setup_default_alphabet 10) false
        (init_helper_data 10 32) 2147483647).1.length = 10 ∧
    (print_to_out_iter 10 32 (setup_default_alphabet 10) false
        (init_helper_data 10 32) 2147483647).2.2.1 = true ∧
    (print_to_out_iter 10 32 (setup_default_alphabet 10) false
        (init_helper_data 10 32) 2147483647).2.2.2.getLastD 0 =
      1000000000 ∧
    (print_to_out_iter 10 32 (setup_default_alphabet 10) false
        (init_helper_data 10 32) 2147483647).2.2.2.length = 10 ∧
    append_helper_data 10 32
      [1, 10, 100, 1000, 10000, 100000, 1000000, 10000000, 100000000,
        1000000000] = none := by decide

/-- `C7` — Zero handling: for every base, alphabet and internal state, all
four strategies emit exactly the single character `alphabet[0]` for the
value 0, with digit count 1. -/
theorem C7_zero_handling (b w : Nat) (a sqr : List Char) (reached : Bool)
    (ps : List Nat) :
    (print_to_out_iter b w a reached ps 0).1 = [a.getD 0 ' '] ∧
    (print_to_out_iter b w a reached ps 0).1.length = 1 ∧
    (print_to_out_iter_2 b w a sqr reached ps 0).1 = [a.getD 0 ' '] ∧
    (print_to_out_iter_2 b w a sqr reached ps 0).1.length = 1 ∧
    print_to_buffer b a 0 = [a.getD 0 ' '] ∧
    (print_to_buffer b a 0).length = 1 ∧
    print_to_buffer_2 b a sqr 0 = [a.getD 0 ' '] ∧
    (print_to_buffer_2 b a sqr 0).length = 1 := by
  rw [lr_print_zero, lr2_print_zero, mp_print_zero, mp2_print_zero]
  exact ⟨rfl, rfl, rfl, rfl, rfl, rfl, rfl, rfl⟩

/-- One step of the `do/while` loop of `modulo_printer::print_to_buffer`. -/
theorem modulo_digits_cons {b x : Nat} (hb : 2 ≤ b) (hx : 0 < x) :
    modulo_digits b x = x % b :: modulo_digits b (x / b) := by
  rw [modulo_digits, dif_pos ⟨hb, hx⟩]

theorem modulo_digits_zero (b : Nat) : modulo_digits b 0 = [] := by
  rw [modulo_digits, dif_neg (by omega)]

theorem modulo_digits_8_255 : modulo_digits 8 255 = [7, 7, 3] := by
  rw [modulo_digits_cons (by norm_num) (by norm_num),
    show (255 : Nat) % 8 = 7 from rfl, show (255 : Nat) / 8 = 31 from rfl,
    modulo_digits_cons (by norm_num) (by norm_num),
    show (31 : Nat) % 8 = 7 from rfl, show (31 : Nat) / 8 = 3 from rfl,
    modulo_digits_cons (by norm_num) (by norm_num),
    show (3 : Nat) % 8 = 3 from rfl, show (3 : Nat) / 8 = 0 from rfl,
    modulo_digits_zero]

theorem modulo_digits_16_255 : modulo_digits 16 255 = [15, 15] := by
  rw [modulo_digits_cons (by norm_num) (by norm_num),
    show (255 : Nat) % 16 = 15 from rfl, show (255 : Nat) / 16 = 15 from rfl,
    modulo_digits_cons (by norm_num) (by norm_num),
    show (15 : Nat) % 16 = 15 from rfl, show (15 : Nat) / 16 = 0 from rfl,
    modulo_digits_zero]

/-- One step of the `while ( x >= _base )` loop of
`modulo_printer_2_digits::print_to_buffer`. -/
theorem modulo_chunks_2_cons {b x : Nat} (hb : 2 ≤ b) (hx : b ≤ x) :
    modulo_chunks_2 b x =
      (x % (b * b) :: (modulo_chunks_2 b (x / (b * b))).1,
        (modulo_chunks_2 b (x / (b * b))).2) := by
  rw [modulo_chunks_2, dif_pos ⟨hb, hx⟩]

theorem modulo_chunks_2_lt {b x : Nat} (h : x < b) :
    modulo_chunks_2 b x = ([], x) := by
  rw [modulo_chunks_2, dif_neg (by omega)]

theorem modulo_chunks_2_8_255 : modulo_chunks_2 8 255 = ([63], 3) := by
  rw [modulo_chunks_2_cons (by norm_num) (by norm_num),
    show (255 : Nat) % (8 * 8) = 63 from rfl,
    show (255 : Nat) / (8 * 8) = 3 from rfl,
    modulo_chunks_2_lt (by norm_num)]

theorem modulo_chunks_2_16_255 : modulo_chunks_2 16 255 = ([255], 0) := by
  rw [modulo_chunks_2_cons (by norm_num) (by norm_num),
    show (255 : Nat) % (16 * 16) = 255 from rfl,
    show (255 : Nat) / (16 * 16) = 0 from rfl,
    modulo_chunks_2_lt (by norm_num)]

set_option maxRecDepth 100000 in
/-- `C8` — Base change consistency: on a single instance of each of the
four strategies (32-bit numeric type), `print(255)` under base 8 yields
`"377"` with digit count 3; after `set_base(16)` and
`setup_default_alphabet()` on the same instance, `print(255)` yields
`"ff"` with digit count 2.  `set_base` rebuilds the derived state: the
`lr` power caches restart at `init_helper_data` for the new base. -/
theorem C8_base_change :
    (((lr_printer.construct 32 10).set_base 32 8).print 32 255).1 =
      ['3', '7', '7'] ∧
    (((lr_printer.construct 32 10).set_base 32 8).print 32 255).2.1 = 3 ∧
    ((lr_printer.construct 32 10).set_base 32 8).powers =
      init_helper_data 8 32 ∧
    (((((((lr_printer.construct 32 10).set_base 32 8).print 32
      255).2.2).set_base 32 16).setup_default).print 32 255).1 =
      ['f', 'f'] ∧
    (((((((lr_printer.construct 32 10).set_base 32 8).print 32
      255).2.2).set_base 32 16).setup_default).print 32 255).2.1 = 2 ∧
    (((lr_printer_2_digits.construct 32 10).set_base 32 8).print 32
      255).1 = ['3', '7', '7'] ∧
    (((lr_printer_2_digits.construct 32 10).set_base 32 8).print 32
      255).2.1 = 3 ∧
    ((lr_printer_2_digits.construct 32 10).set_base 32 8).powers =
      init_helper_data 8 32 ∧
    (((((((lr_printer_2_digits.construct 32 10).set_base 32 8).print 32
      255).2.2).set_base 32 16).setup_default).print 32 255).1 =
      ['f', 'f'] ∧
    (((((((lr_printer_2_digits.construct 32 10).set_base 32 8).print 32
      255).2.2).set_base 32 16).setup_default).print 32 255).2.1 = 2 ∧
    (((modulo_printer.construct 10).set_base 8).print 255).1 =
      ['3', '7', '7'] ∧
    (((modulo_printer.construct 10).set_base 8).print 255).2.1 = 3 ∧
    (((((((modulo_printer.construct 10).set_base 8).print
      255).2.2).set_base 16).setup_default).print 255).1 = ['f', 'f'] ∧
    (((((((modulo_printer.construct 10).set_base 8).print
      255).2.2).set_base 16).setup_default).print 255).2.1 = 2 ∧
    (((modulo_printer_2_digits.construct 10).set_base 8).print 255).1 =
      ['3', '7', '7'] ∧
    (((modulo_printer_2_digits.construct 10).set_base 8).print 255).2.1 =
      3 ∧
    (((((((modulo_printer_2_digits.construct 10).set_base 8).print
      255).2.2).set_base 16).setup_default).print 255).1 = ['f', 'f'] ∧
    (((((((modulo_printer_2_digits.construct 10).set_base 8).print
      255).2.2).set_base 16).setup_default).print 255).2.1 = 2 := by
  refine ⟨by decide, by decide, by decide, by decide, by decide,
    by decide, by decide, by decide, by decide, by decide,
    ?_, ?_, ?_, ?_, ?_, ?_, ?_, ?_⟩
  · simp only [modulo_printer.construct, modulo_printer.set_base,
      modulo_printer.setup_default, modulo_printer.print, print_to_buffer]
    rw [modulo_digits_8_255]
    decide
  · simp only [modulo_printer.construct, modulo_printer.set_base,
      modulo_printer.setup_default, modulo_printer.print, print_to_buffer]
    rw [modulo_digits_8_255]
    decide
  · simp only [modulo_printer.construct, modulo_printer.set_base,
      modulo_printer.setup_default, modulo_printer.print, print_to_buffer]
    rw [modulo_digits_16_255]
    decide
  · simp only [modulo_printer.construct, modulo_printer.set_base,
      modulo_printer.setup_default, modulo_printer.print, print_to_buffer]
    rw [modulo_digits_16_255]
    decide
  · simp only [modulo_printer_2_digits.construct,
      modulo_printer_2_digits.set_base, modulo_printer_2_digits.setup_default,
      modulo_printer_2_digits.print, print_to_buffer_2]
    rw [modulo_chunks_2_8_255]
    decide
  · simp only [modulo_printer_2_digits.construct,
      modulo_printer_2_digits.set_base, modulo_printer_2_digits.setup_default,
      modulo_printer_2_digits.print, print_to_buffer_2]
    rw [modulo_chunks_2_8_255]
    decide
  · simp only [modulo_printer_2_digits.construct,
      modulo_printer_2_digits.set_base, modulo_printer_2_digits.setup_default,
      modulo_printer_2_digits.print, print_to_buffer_2]
    rw [modulo_chunks_2_16_255]
    decide
  · simp only [modulo_printer_2_digits.construct,
      modulo_printer_2_digits.set_base, modulo_printer_2_digits.setup_default,
      modulo_printer_2_digits.print, print_to_buffer_2]
    rw [modulo_chunks_2_16_255]
    decide

/-- `C9` counterexample — the claim that the paired strategies assert
`base ≤ 17` fails on both paired classes:
`lr_printer_2_digits::setup_default_alphabet` asserts `_base <= 10 + 6`,
which already rejects base 17, while
`modulo_printer_2_digits::setup_default_alphabet` asserts
`_base <= 10 + 26`, which accepts base 36 > 17. -/
theorem C9_counterexample :
    ¬ lr2_alphabet_assert 17 ∧ mp2_alphabet_assert 36 := by
  unfold lr2_alphabet_assert mp2_alphabet_assert
  omega

/-- `C9` amended — Default alphabet and base caps:
`setup_default_alphabet` fills positions `0..base-1` with `'0'-'9'` then
`'a'-'z'`; the guarding asserts accept bases up to 36 in `lr_printer`,
`modulo_printer` **and** `modulo_printer_2_digits`, but only up to 16 in
`lr_printer_2_digits`. -/
theorem C9_default_alphabet_amended :
    ∀ base < 37,
      (lr_alphabet_assert base ↔ base ≤ 36) ∧
      (mp_alphabet_assert base ↔ base ≤ 36) ∧
      (mp2_alphabet_assert base ↔ base ≤ 36) ∧
      (lr2_alphabet_assert base ↔ base ≤ 16) ∧
      (setup_default_alphabet base).length = base ∧
      (∀ d, d < base → (setup_default_alphabet base).getD d ' ' =
        if d < 10 then Char.ofNat (48 + d) else Char.ofNat (97 + (d - 10)))
    := by
  unfold lr_alphabet_assert mp_alphabet_assert mp2_alphabet_assert
  unfold lr2_alphabet_assert
  decide

theorem C9_default_alphabet_amended_witness :
    (lr_alphabet_assert 16 ↔ 16 ≤ 36) ∧
    (mp_alphabet_assert 16 ↔ 16 ≤ 36) ∧
    (mp2_alphabet_assert 16 ↔ 16 ≤ 36) ∧
    (lr2_alphabet_assert 16 ↔ 16 ≤ 16) ∧
    (setup_default_alphabet 16).length = 16 ∧
    (∀ d, d < 16 → (setup_default_alphabet 16).getD d ' ' =
      if d < 10 then Char.ofNat (48 + d) else Char.ofNat (97 + (d - 10))) :=
  C9_default_alphabet_amended 16 (by norm_num)

/-- `C10` — Bounds safety of the fixed internal arrays: for bases up to 36
and a numeric type of at most 64 bits, the power tables of the two `lr`
printers never exceed `w ≤ 64` entries — strictly below their 70 resp. 69
slots — even across arbitrary sequences of prints, and the two
backward-writing modulo printers emit at most `w ≤ 64` characters, so the
write pointer (digits plus terminator) never moves below the start of
their 71- resp. 69-slot scratch buffers. -/
theorem C10_array_bounds (b w : Nat) (nums : List Nat) (x : Nat)
    (hb : 2 ≤ b) (hb36 : b ≤ 36) (hw6 : 6 ≤ w) (hw64 : w ≤ 64)
    (hnums : ∀ n ∈ nums, n < 2 ^ w) (hx : x < 2 ^ w) :
    (lr_run b w nums).2.length ≤ w ∧ w < lr_MAX_DIGITS ∧
    (lr2_run b w nums).2.length ≤ w ∧ w < lr2_DIGITS_MAX ∧
    (print_to_buffer b (setup_default_alphabet b) x).length ≤ w ∧
    (print_to_buffer b (setup_default_alphabet b) x).length + 1 ≤
      mp_DIGITS_MAX ∧
    (print_to_buffer_2 b (setup_default_alphabet b)
      (calculate_alphabet_sqr b (setup_default_alphabet b)) x).length ≤ w ∧
    (print_to_buffer_2 b (setup_default_alphabet b)
      (calculate_alphabet_sqr b (setup_default_alphabet b)) x).length + 1 ≤
      mp2_DIGITS_MAX := by
  have hbw := b_lt_two_pow hb36 hw6
  have inv1 := lr_run_inv hb hbw nums hnums
  have inv2 := lr2_run_inv hb hbw nums hnums
  have hlen1 : (lr_run b w nums).2.length ≤ w :=
    powsOf_length_le hb inv1.2.1 inv1.2.2.1
  have hlen2 : (lr2_run b w nums).2.length ≤ w :=
    powsOf_length_le hb (le_trans (by omega) inv2.2.1) inv2.2.2.1
  have hmp : (print_to_buffer b (setup_default_alphabet b) x).length ≤ w := by
    by_cases hx0 : x = 0
    · subst hx0
      rw [mp_print_zero]
      simp only [List.length_singleton]
      omega
    · rw [print_to_buffer_spec hb (by omega)]
      rw [List.length_map, bePad_length]
      have : Nat.log b x < w := Nat.log_lt_of_lt_pow hx0
        (lt_of_lt_of_le hx (Nat.pow_le_pow_left hb w))
      omega
  have hmp2 : (print_to_buffer_2 b (setup_default_alphabet b)
      (calculate_alphabet_sqr b (setup_default_alphabet b)) x).length ≤ w := by
    by_cases hx0 : x = 0
    · subst hx0
      rw [mp2_print_zero]
      simp only [List.length_singleton]
      omega
    · rw [print_to_buffer_2_spec _ hb x (by omega)]
      rw [List.length_map, bePad_length]
      have : Nat.log b x < w := Nat.log_lt_of_lt_pow hx0
        (lt_of_lt_of_le hx (Nat.pow_le_pow_left hb w))
      omega
  exact ⟨hlen1, show w < 70 by omega, hlen2, show w < 69 by omega, hmp,
    show _ + 1 ≤ 71 by omega, hmp2, show _ + 1 ≤ 69 by omega⟩

theorem C10_array_bounds_witness :
    (lr_run 10 64 [7, 2147483647]).2.length ≤ 64 ∧ 64 < lr_MAX_DIGITS ∧
    (lr2_run 10 64 [7, 2147483647]).2.length ≤ 64 ∧ 64 < lr2_DIGITS_MAX ∧
    (print_to_buffer 10 (setup_default_alphabet 10) 98765).length ≤ 64 ∧
    (print_to_buffer 10 (setup_default_alphabet 10) 98765).length + 1 ≤
      mp_DIGITS_MAX ∧
    (print_to_buffer_2 10 (setup_default_alphabet 10)
      (calculate_alphabet_sqr 10 (setup_default_alphabet 10))
      98765).length ≤ 64 ∧
    (print_to_buffer_2 10 (setup_default_alphabet 10)
      (calculate_alphabet_sqr 10 (setup_default_alphabet 10))
      98765).length + 1 ≤ mp2_DIGITS_MAX :=
  C10_array_bounds 10 64 [7, 2147483647] 98765 (by norm_num) (by norm_num)
    (by norm_num) (by norm_num) (by decide) (by norm_num)
